import Mathlib

/-!
Verification of the alignment/resampling/merge engine of src/parse.py
(garmin-venu3-vs-viatom-o2ring).

The Python code delegates its core algorithms to pandas; the embedding
below reproduces the documented pandas semantics that the code relies on:

* DataFrame.resample with a one-minute frequency followed by mean():
  every timestamp is floored to the start of its containing minute, the
  resulting bins cover every minute from the floored minimum timestamp to
  the floored maximum timestamp inclusive (empty bins are present), and
  each bin and column holds the arithmetic mean of the non-missing (non-NaN)
  raw values of that column in the bin; a bin with no such value holds NaN.
* DataFrame.interpolate with the linear method and the default forward
  limit direction: per column, a NaN cell with a known value before it and
  a known value after it receives the linear interpolation of the nearest
  such neighbours (positional, which on the uniform minute grid agrees with
  time-based weighting); a NaN cell before the first known value stays NaN;
  a NaN cell after the last known value receives the last known value
  (forward extrapolation clamps to the boundary value).
* Label slicing df[a:b] on a sorted unique index keeps exactly the rows
  whose label lies in the closed interval [a, b].
* pd.concat on the column axis aligns rows on the (sorted, deduplicated)
  union of the indices and places each input column next to the others;
  a frame lacking some index label contributes missing values in its
  columns at that label.

Missing values (NaN) are modelled by Option; numeric values by the exact
rationals. Timestamps are rational numbers of seconds; minute buckets are
integers (the floored minute index). Local wall-clock conversion in
datetime.fromtimestamp shifts all timestamps by one constant offset, which
is immaterial to every property below, so timestamps are kept in epoch
seconds.
-/

namespace ParsePy

/- The batteries library hides the definitions of the rational operations
from unification; restoring their visibility lets concrete instances of
the definitions below be evaluated by rfl and decide. -/
attribute [local semireducible] Rat.mul Rat.add Rat.sub Rat.inv

/-- Channel (column) names of the three readers, as fixed by src/parse.py. -/
inductive Chan where
  | heart_rate
  | garmin_spo2
  | garmin_confidence
  | o2ring_spo2
  | o2ring_pulse
  | o2ring_motion
deriving DecidableEq, Repr

/-- Minute bucket of a timestamp in seconds: pandas resample with frequency
min labels each row with its timestamp floored to the minute; we represent
the label by the integer minute index. -/
def bucket (t : ℚ) : ℤ := ⌊t / 60⌋

/-- A raw record as it enters resampling: a timestamp in seconds and one
(possibly missing, i.e. NaN) value per channel of the frame. -/
abbrev Rec : Type := ℚ × List (Option ℚ)

/-- The records of a given minute bucket. -/
def bucketRecs (recs : List Rec) (b : ℤ) : List Rec :=
  recs.filter (fun r => decide (bucket r.1 = b))

/-- The non-missing values of channel j among some records. -/
def chanVals (recs : List Rec) (j : ℕ) : List ℚ :=
  recs.filterMap (fun r => (r.2.get? j).join)

/-- Arithmetic mean, with the pandas convention that the mean of no values
is NaN (missing), never zero. -/
def meanQ (xs : List ℚ) : Option ℚ :=
  if xs.isEmpty then none else some (xs.sum / (xs.length : ℚ))

/-- Minimum of a list of integers (0 on the empty list, which the callers
never hit: the readers reject empty inputs first). -/
def listMin : List ℤ → ℤ
  | [] => 0
  | x :: xs => xs.foldl min x

/-- Maximum of a list of integers (0 on the empty list). -/
def listMax : List ℤ → ℤ
  | [] => 0
  | x :: xs => xs.foldl max x

/-- The minute labels lo, lo+1, ..., hi (empty when hi < lo). -/
def gridIdx (lo hi : ℤ) : List ℤ :=
  (List.range (hi + 1 - lo).toNat).map (fun (i : ℕ) => lo + (i : ℤ))

/-- A pandas DataFrame with a minute-resolution DatetimeIndex: the index
labels (integer minute buckets) in row order, the column names, and one
list of cells per row. -/
structure Frame where
  index : List ℤ
  names : List Chan
  rows : List (List (Option ℚ))
deriving DecidableEq, Repr

/-- df.resample(min).mean(): one row per minute from the floored earliest
timestamp to the floored latest timestamp, each cell the mean of the
non-missing raw values of its channel in its minute bucket. -/
def resample (names : List Chan) (recs : List Rec) : Frame :=
  if recs.isEmpty then { index := [], names := names, rows := [] }
  else
    let lo := listMin (recs.map (fun r => bucket r.1))
    let hi := listMax (recs.map (fun r => bucket r.1))
    { index := gridIdx lo hi
      names := names
      rows := (gridIdx lo hi).map (fun b =>
        (List.range names.length).map (fun j => meanQ (chanVals (bucketRecs recs b) j))) }

/-- Cell of row i, column j (missing when out of range). -/
def cellAt (f : Frame) (i j : ℕ) : Option ℚ :=
  (((f.rows.get? i).getD []).get? j).join

/-- Column j of a frame as a list of possibly missing values, top to bottom. -/
def Frame.col (f : Frame) (j : ℕ) : List (Option ℚ) :=
  f.rows.map (fun r => (r.get? j).join)

/-- Index and value of the last known (non-missing) entry at or before
position i, scanning downward. -/
def prevKnown (l : List (Option ℚ)) : ℕ → Option (ℕ × ℚ)
  | 0 => ((l.get? 0).join).map (fun v => (0, v))
  | i + 1 =>
    match ((l.get? (i + 1)).join) with
    | some v => some (i + 1, v)
    | none => prevKnown l i

/-- Index and value of the first known (non-missing) entry of a column. -/
def firstKnown : List (Option ℚ) → Option (ℕ × ℚ)
  | [] => none
  | some v :: _ => some (0, v)
  | none :: rest => (firstKnown rest).map (fun p => (p.1 + 1, p.2))

/-- Index and value of the first known entry strictly after position i. -/
def nextKnown (l : List (Option ℚ)) (i : ℕ) : Option (ℕ × ℚ) :=
  (firstKnown (l.drop (i + 1))).map (fun p => (i + 1 + p.1, p.2))

/-- Value of Series.interpolate(method=linear) at position i: known cells
keep their value; a missing cell between two known neighbours is filled
linearly; a missing cell before the first known value stays missing
(forward limit direction); a missing cell after the last known value is
clamped to that value. -/
def interpAt (l : List (Option ℚ)) (i : ℕ) : Option ℚ :=
  match (l.get? i).join with
  | some v => some v
  | none =>
    match prevKnown l i with
    | none => none
    | some (p, a) =>
      match nextKnown l i with
      | some (q, b) => some (a + (b - a) * (((i : ℚ) - (p : ℚ)) / ((q : ℚ) - (p : ℚ))))
      | none => some a

/-- One column of DataFrame.interpolate(method=linear). -/
def interpolateLinear (l : List (Option ℚ)) : List (Option ℚ) :=
  (List.range l.length).map (interpAt l)

/-- DataFrame.interpolate(method=linear): every column interpolated
independently; index and column names unchanged. -/
def Frame.interpolate (f : Frame) : Frame :=
  let cols := (List.range f.names.length).map (fun j => interpolateLinear (f.col j))
  { f with rows := (List.range f.index.length).map (fun i =>
      cols.map (fun c => (c.get? i).join)) }

/-- A JSON scalar as far as the pulse reader distinguishes them: a number
or a non-numeric value (any other JSON payload, e.g. a string), which the
pandas mean aggregation cannot convert and rejects. JSON null, which the
real Garmin export does not use for these two fields, is not modelled. -/
inductive JVal where
  | num (q : ℚ)
  | str (s : String)
deriving DecidableEq, Repr

/-- One object of the pulse JSON array, seen through the two dictionary
lookups the code performs: the startGMT field and the value field, each
possibly absent. Other keys of the object are never read. -/
structure PulseItem where
  startGMT : Option JVal
  value : Option JVal
deriving DecidableEq, Repr

/-- The error taxonomy of the design: a structurally bad record (KeyError
on a missing dictionary key, or the TypeError pandas raises when asked to
average a non-numeric column) and an empty input (the KeyError raised by
set_index on the empty DataFrame). -/
inductive ParseError where
  | emptyInput
  | malformedInput
deriving DecidableEq, Repr

/-- The number carried by a JSON field, when the field is present and
numeric. -/
def numOf : Option JVal → Option ℚ
  | some (.num q) => some q
  | _ => none

/-- The record-building loop of parse_garmin_pulse: for each item, read
item[startGMT] (milliseconds, divided by 1000 to seconds) and item[value]
(the heart rate). A missing key raises a KeyError at once; a non-numeric
value only fails later, at the mean aggregation, but either way the whole
call fails, so both are reported as the malformed-input outcome here. -/
def pulseRecords : List PulseItem → Except ParseError (List Rec)
  | [] => .ok []
  | item :: rest =>
    match numOf item.startGMT, numOf item.value with
    | some ms, some v =>
      (pulseRecords rest).map (fun rs => (ms / 1000, [some v]) :: rs)
    | _, _ => .error .malformedInput

/-- parse_garmin_pulse: build the records, fail on an empty input (the
code raises a KeyError there when setting the index on an empty frame),
resample to the minute grid by mean and gap-fill the heart-rate column by
linear interpolation. -/
def parse_garmin_pulse (data : List PulseItem) : Except ParseError Frame :=
  match pulseRecords data with
  | .error e => .error e
  | .ok [] => .error .emptyInput
  | .ok (r :: rs) => .ok (Frame.interpolate (resample [.heart_rate] (r :: rs)))

/-- One record of the SpO2 JSON array after field decoding: the parsed
epochTimestamp in seconds, and the spo2Reading and readingConfidence
values, each possibly missing (a JSON null becomes NaN in the frame). -/
structure SpoRec where
  ts : ℚ
  spo2 : Option ℚ
  conf : Option ℚ
deriving DecidableEq, Repr

/-- parse_garmin_spo2: records indexed by their parsed timestamp, then
resampled to the minute grid by mean, with no gap-fill step. -/
def parse_garmin_spo2 (data : List SpoRec) : Except ParseError Frame :=
  match data with
  | [] => throw .emptyInput
  | _ => pure (resample [.garmin_spo2, .garmin_confidence]
      (data.map (fun r => (r.ts, [r.spo2, r.conf]))))

/-- One CSV cell: numeric text or a non-numeric sentinel, which
pd.to_numeric with errors=coerce turns into NaN. -/
inductive CsvCell where
  | num (q : ℚ)
  | text (s : String)
deriving DecidableEq, Repr

/-- pd.to_numeric(..., errors=coerce) on one cell. -/
def toNumeric : CsvCell → Option ℚ
  | .num q => some q
  | .text _ => none

/-- One row of the O2Ring CSV after the Time column has been parsed to a
timestamp in seconds: the Oxygen Level, Pulse Rate and Motion cells. -/
structure O2Row where
  time : ℚ
  oxygen : CsvCell
  pulse : CsvCell
  motion : CsvCell
deriving DecidableEq, Repr

/-- parse_o2ring_csv: coerce the three data columns to numbers (non-numeric
sentinels become missing), index by the parsed Time column and resample to
the minute grid by mean, with no gap-fill step. -/
def parse_o2ring_csv (rows : List O2Row) : Except ParseError Frame :=
  match rows with
  | [] => throw .emptyInput
  | _ => pure (resample [.o2ring_spo2, .o2ring_pulse, .o2ring_motion]
      (rows.map (fun r => (r.time, [toNumeric r.oxygen, toNumeric r.pulse, toNumeric r.motion]))))

/-- df.index.min() of a frame. -/
def Frame.idxMin (f : Frame) : ℤ := listMin f.index

/-- df.index.max() of a frame. -/
def Frame.idxMax (f : Frame) : ℤ := listMax f.index

/-- Membership of a label in the closed slicing interval [a, b]. -/
def inRange (a b t : ℤ) : Bool := decide (a ≤ t ∧ t ≤ b)

/-- Label slice df[a:b]: keep the rows whose index label lies in the closed
interval [a, b]. -/
def Frame.trim (f : Frame) (a b : ℤ) : Frame :=
  let keep := (f.index.zip f.rows).filter (fun p => inRange a b p.1)
  { index := keep.map Prod.fst, names := f.names, rows := keep.map Prod.snd }

/-- Row of a frame at index label t, as alignment sees it: the first row
carrying that label, or an all-missing row when the label is absent. -/
def Frame.rowAt (f : Frame) (t : ℤ) : List (Option ℚ) :=
  match (f.index.zip f.rows).find? (fun p => decide (p.1 = t)) with
  | some p => p.2
  | none => f.names.map (fun _ => none)

/-- The sorted union of the index labels of several frames, on which
pd.concat aligns the rows. -/
def unionIndex (fs : List Frame) : List ℤ :=
  ((fs.map Frame.index).flatten.dedup).insertionSort (fun a b => a ≤ b)

/-- pd.concat(..., axis=1): columns side by side, rows aligned on the
sorted union of the indices. -/
def concatFrames (fs : List Frame) : Frame :=
  { index := unionIndex fs
    names := (fs.map Frame.names).flatten
    rows := (unionIndex fs).map (fun t => (fs.map (fun f => f.rowAt t)).flatten) }

/-- merge_data: intersect the time ranges, trim every frame to the common
closed range and concatenate the columns. -/
def merge_data (pulse_df spo2_df o2ring_df : Frame) : Frame :=
  let start_time := max (max pulse_df.idxMin spo2_df.idxMin) o2ring_df.idxMin
  let end_time := min (min pulse_df.idxMax spo2_df.idxMax) o2ring_df.idxMax
  concatFrames [pulse_df.trim start_time end_time,
    spo2_df.trim start_time end_time,
    o2ring_df.trim start_time end_time]

/-- Position of a column name in a name list. -/
def colIdx (c : Chan) : List Chan → Option ℕ
  | [] => none
  | n :: ns => if n = c then some 0 else (colIdx c ns).map (fun j => j + 1)

/-- Cell of a frame at index label t and column name c (missing when the
label or the name is absent). -/
def Frame.cell (f : Frame) (t : ℤ) (c : Chan) : Option ℚ :=
  match colIdx c f.names with
  | some j => ((f.rowAt t).get? j).join
  | none => none

/-! ### Minimum and maximum of integer lists -/

theorem foldl_min_le_init (l : List ℤ) (a : ℤ) : l.foldl min a ≤ a := by
  induction l generalizing a with
  | nil => exact le_refl a
  | cons x xs ih => exact le_trans (ih (min a x)) (min_le_left a x)

theorem foldl_min_le_mem (l : List ℤ) (x : ℤ) (hx : x ∈ l) :
    ∀ a, l.foldl min a ≤ x := by
  induction l with
  | nil => cases hx
  | cons y ys ih =>
    intro a
    rcases List.mem_cons.mp hx with h | h
    · subst h
      exact le_trans (foldl_min_le_init ys (min a x)) (min_le_right a x)
    · exact ih h (min a y)

theorem foldl_min_mem (l : List ℤ) (a : ℤ) :
    l.foldl min a = a ∨ l.foldl min a ∈ l := by
  induction l generalizing a with
  | nil => exact Or.inl rfl
  | cons x xs ih =>
    rw [List.foldl_cons]
    rcases ih (min a x) with h | h
    · rw [h]
      rcases min_cases a x with ⟨hm, _⟩ | ⟨hm, _⟩
      · exact Or.inl hm
      · refine Or.inr ?_
        rw [hm]
        exact List.mem_cons_self x xs
    · exact Or.inr (List.mem_cons_of_mem x h)

theorem listMin_le (l : List ℤ) (x : ℤ) (hx : x ∈ l) : listMin l ≤ x := by
  cases l with
  | nil => cases hx
  | cons y ys =>
    rcases List.mem_cons.mp hx with h | h
    · subst h
      exact foldl_min_le_init ys x
    · exact foldl_min_le_mem ys x h y

theorem listMin_mem (l : List ℤ) (h : l ≠ []) : listMin l ∈ l := by
  cases l with
  | nil => exact absurd rfl h
  | cons y ys =>
    rcases foldl_min_mem ys y with h' | h'
    · simp only [listMin, h']
      exact List.mem_cons_self y ys
    · exact List.mem_cons_of_mem y h'

theorem foldl_max_init_le (l : List ℤ) (a : ℤ) : a ≤ l.foldl max a := by
  induction l generalizing a with
  | nil => exact le_refl a
  | cons x xs ih => exact le_trans (le_max_left a x) (ih (max a x))

theorem foldl_max_mem_le (l : List ℤ) (x : ℤ) (hx : x ∈ l) :
    ∀ a, x ≤ l.foldl max a := by
  induction l with
  | nil => cases hx
  | cons y ys ih =>
    intro a
    rcases List.mem_cons.mp hx with h | h
    · subst h
      exact le_trans (le_max_right a x) (foldl_max_init_le ys (max a x))
    · exact ih h (max a y)

theorem foldl_max_mem (l : List ℤ) (a : ℤ) :
    l.foldl max a = a ∨ l.foldl max a ∈ l := by
  induction l generalizing a with
  | nil => exact Or.inl rfl
  | cons x xs ih =>
    rw [List.foldl_cons]
    rcases ih (max a x) with h | h
    · rw [h]
      rcases max_cases a x with ⟨hm, _⟩ | ⟨hm, _⟩
      · exact Or.inl hm
      · refine Or.inr ?_
        rw [hm]
        exact List.mem_cons_self x xs
    · exact Or.inr (List.mem_cons_of_mem x h)

theorem le_listMax (l : List ℤ) (x : ℤ) (hx : x ∈ l) : x ≤ listMax l := by
  cases l with
  | nil => cases hx
  | cons y ys =>
    rcases List.mem_cons.mp hx with h | h
    · subst h
      exact foldl_max_init_le ys x
    · exact foldl_max_mem_le ys x h y

theorem listMax_mem (l : List ℤ) (h : l ≠ []) : listMax l ∈ l := by
  cases l with
  | nil => exact absurd rfl h
  | cons y ys =>
    rcases foldl_max_mem ys y with h' | h'
    · simp only [listMax, h']
      exact List.mem_cons_self y ys
    · exact List.mem_cons_of_mem y h'

theorem listMin_le_listMax (l : List ℤ) (h : l ≠ []) : listMin l ≤ listMax l :=
  listMin_le l (listMax l) (listMax_mem l h)

/-! ### The minute grid -/

theorem gridIdx_length (lo hi : ℤ) : (gridIdx lo hi).length = (hi + 1 - lo).toNat := by
  rw [gridIdx, List.length_map, List.length_range]

theorem gridIdx_get? (lo hi : ℤ) (i : ℕ) (hi' : (i : ℤ) ≤ hi - lo) :
    (gridIdx lo hi).get? i = some (lo + (i : ℤ)) := by
  have hlt : i < (hi + 1 - lo).toNat := by omega
  rw [gridIdx, List.get?_eq_getElem?, List.getElem?_map, List.getElem?_range hlt,
    Option.map_some']

theorem mem_gridIdx (lo hi t : ℤ) : t ∈ gridIdx lo hi ↔ lo ≤ t ∧ t ≤ hi := by
  simp only [gridIdx, List.mem_map, List.mem_range]
  constructor
  · rintro ⟨i, hilt, hit⟩
    omega
  · rintro ⟨h1, h2⟩
    exact ⟨(t - lo).toNat, by omega, by omega⟩

theorem gridIdx_eq_nil (lo hi : ℤ) (h : hi < lo) : gridIdx lo hi = [] := by
  have : (hi + 1 - lo).toNat = 0 := by omega
  rw [gridIdx, this]
  rfl

theorem gridIdx_ne_nil (lo hi : ℤ) (h : lo ≤ hi) : gridIdx lo hi ≠ [] := by
  intro hnil
  have : lo ∈ gridIdx lo hi := (mem_gridIdx lo hi lo).mpr ⟨le_refl lo, h⟩
  simp [hnil] at this

theorem gridIdx_getElem (lo hi : ℤ) (i : ℕ) (h : i < (gridIdx lo hi).length) :
    (gridIdx lo hi)[i] = lo + (i : ℤ) := by
  simp [gridIdx]

theorem gridIdx_sorted (lo hi : ℤ) : (gridIdx lo hi).Sorted (· < ·) := by
  have h : List.Pairwise (fun a b => a < b) ((List.range (hi + 1 - lo).toNat).map
      (fun (i : ℕ) => lo + (i : ℤ))) :=
    List.Pairwise.map (fun (i : ℕ) => lo + (i : ℤ))
      (fun a b hab => add_lt_add_left (by exact_mod_cast hab) lo) (List.pairwise_lt_range _)
  rw [gridIdx]
  exact h

theorem gridIdx_nodup (lo hi : ℤ) : (gridIdx lo hi).Nodup :=
  (gridIdx_sorted lo hi).imp (fun h => ne_of_lt h)

theorem gridIdx_sorted_le (lo hi : ℤ) : (gridIdx lo hi).Sorted (· ≤ ·) :=
  (gridIdx_sorted lo hi).imp (fun h => le_of_lt h)

theorem gridIdx_chain (lo hi : ℤ) :
    List.Chain' (fun a b => b = a + 1) (gridIdx lo hi) := by
  rw [List.chain'_iff_get]
  intro i hlen
  have hlen' : i + 1 < (gridIdx lo hi).length := by omega
  rw [List.get_eq_getElem, List.get_eq_getElem, gridIdx_getElem lo hi i (by omega),
    gridIdx_getElem lo hi (i + 1) hlen']
  push_cast
  ring

theorem listMin_gridIdx (lo hi : ℤ) (h : lo ≤ hi) : listMin (gridIdx lo hi) = lo := by
  have hne := gridIdx_ne_nil lo hi h
  have h1 := (mem_gridIdx lo hi _).mp (listMin_mem _ hne)
  have h2 := listMin_le (gridIdx lo hi) lo ((mem_gridIdx lo hi lo).mpr ⟨le_refl lo, h⟩)
  omega

theorem listMax_gridIdx (lo hi : ℤ) (h : lo ≤ hi) : listMax (gridIdx lo hi) = hi := by
  have hne := gridIdx_ne_nil lo hi h
  have h1 := (mem_gridIdx lo hi _).mp (listMax_mem _ hne)
  have h2 := le_listMax (gridIdx lo hi) hi ((mem_gridIdx lo hi hi).mpr ⟨h, le_refl hi⟩)
  omega

/-! ### Facts about resample -/

theorem resample_index (names : List Chan) (recs : List Rec) (h : recs ≠ []) :
    (resample names recs).index =
      gridIdx (listMin (recs.map (fun r => bucket r.1)))
        (listMax (recs.map (fun r => bucket r.1))) := by
  cases recs with
  | nil => exact absurd rfl h
  | cons r rs => rfl

theorem resample_names (names : List Chan) (recs : List Rec) :
    (resample names recs).names = names := by
  cases recs with
  | nil => rfl
  | cons r rs => rfl

theorem resample_rows (names : List Chan) (recs : List Rec) (h : recs ≠ []) :
    (resample names recs).rows = (resample names recs).index.map (fun b =>
      (List.range names.length).map (fun j => meanQ (chanVals (bucketRecs recs b) j))) := by
  cases recs with
  | nil => exact absurd rfl h
  | cons r rs => rfl

theorem resample_rows_length (names : List Chan) (recs : List Rec) :
    (resample names recs).rows.length = (resample names recs).index.length := by
  cases recs with
  | nil => rfl
  | cons r rs =>
    rw [resample_rows names (r :: rs) (List.cons_ne_nil r rs), List.length_map]

theorem resample_wf (names : List Chan) (recs : List Rec) :
    ∀ row ∈ (resample names recs).rows, row.length = names.length := by
  intro row hrow
  cases recs with
  | nil => cases hrow
  | cons r rs =>
    rw [resample_rows names (r :: rs) (List.cons_ne_nil r rs)] at hrow
    obtain ⟨b, _, rfl⟩ := List.mem_map.mp hrow
    rw [List.length_map, List.length_range]

theorem resample_cellAt (names : List Chan) (recs : List Rec) (h : recs ≠ [])
    (i j : ℕ) (b : ℤ) (hb : (resample names recs).index.get? i = some b)
    (hj : j < names.length) :
    cellAt (resample names recs) i j = meanQ (chanVals (bucketRecs recs b) j) := by
  rw [cellAt, resample_rows names recs h]
  simp only [List.get?_eq_getElem?] at hb ⊢
  rw [List.getElem?_map, hb]
  simp [List.getElem?_map, List.getElem?_range, hj]

/-- The bucket of the earliest record is the first grid label; dually for
the latest. -/
theorem resample_index_ne_nil (names : List Chan) (recs : List Rec) (h : recs ≠ []) :
    (resample names recs).index ≠ [] := by
  rw [resample_index names recs h]
  refine gridIdx_ne_nil _ _ ?_
  refine listMin_le_listMax _ ?_
  simpa using h

/-! ### Facts about interpolate -/

theorem interpolate_index (f : Frame) : f.interpolate.index = f.index := rfl

theorem interpolate_names (f : Frame) : f.interpolate.names = f.names := rfl

theorem interpolate_rows_length (f : Frame) :
    f.interpolate.rows.length = f.index.length := by
  simp [Frame.interpolate]

theorem col_length (f : Frame) (j : ℕ) : (f.col j).length = f.rows.length := by
  simp [Frame.col]

theorem col_get? (f : Frame) (i j : ℕ) :
    (f.col j).get? i = (f.rows.get? i).map (fun r => (r.get? j).join) := by
  simp [Frame.col, List.get?_eq_getElem?, List.getElem?_map]

theorem interpolateLinear_length (l : List (Option ℚ)) :
    (interpolateLinear l).length = l.length := by
  simp [interpolateLinear]

theorem interpolateLinear_get? (l : List (Option ℚ)) (i : ℕ) (hi : i < l.length) :
    (interpolateLinear l).get? i = some (interpAt l i) := by
  simp [interpolateLinear, List.get?_eq_getElem?, List.getElem?_map, List.getElem?_range, hi]

theorem interpolate_cellAt (f : Frame) (i j : ℕ)
    (hi : i < f.index.length) (hir : i < f.rows.length) (hj : j < f.names.length) :
    cellAt f.interpolate i j = interpAt (f.col j) i := by
  rw [cellAt]
  show (((((List.range f.index.length).map (fun i =>
    ((List.range f.names.length).map (fun j => interpolateLinear (f.col j))).map
      (fun c => (c.get? i).join))).get? i).getD []).get? j).join = interpAt (f.col j) i
  simp only [List.get?_eq_getElem?]
  rw [List.getElem?_map, List.getElem?_range hi]
  simp only [Option.map_some', Option.getD_some]
  rw [List.getElem?_map, List.getElem?_map, List.getElem?_range hj]
  simp only [Option.map_some', Option.join]
  have hg := interpolateLinear_get? (f.col j) i (by rw [col_length]; exact hir)
  simp only [List.get?_eq_getElem?] at hg
  rw [hg]
  rfl

theorem interpAt_known (l : List (Option ℚ)) (i : ℕ) (v : ℚ)
    (h : (l.get? i).join = some v) : interpAt l i = some v := by
  rw [interpAt, h]

/-! ### Locating known neighbours in a column -/

theorem join_none_of_lt (l : List (Option ℚ)) (q : ℕ) (hq : q < l.length)
    (h : (l.get? q).join = none) : l.get? q = some none := by
  cases hx : l.get? q with
  | none =>
    rw [List.get?_eq_none] at hx
    omega
  | some x =>
    rw [hx] at h
    cases x with
    | none => rfl
    | some v => simp at h

theorem prevKnown_eq (l : List (Option ℚ)) (i : ℕ) (a : ℚ)
    (ha : (l.get? i).join = some a) :
    ∀ p, i ≤ p → (∀ q, i < q → q ≤ p → (l.get? q).join = none) →
      prevKnown l p = some (i, a) := by
  intro p
  induction p with
  | zero =>
    intro hip _
    have h0 : i = 0 := Nat.le_zero.mp hip
    subst h0
    rw [prevKnown, ha]
    rfl
  | succ p ih =>
    intro hip h
    by_cases hc : i = p + 1
    · subst hc
      simp only [prevKnown, ha]
    · have hnone : (l.get? (p + 1)).join = none := h (p + 1) (by omega) (le_refl _)
      simp only [prevKnown, hnone]
      exact ih (by omega) (fun q hq1 hq2 => h q hq1 (by omega))

theorem firstKnown_eq (l : List (Option ℚ)) (k : ℕ) (b : ℚ)
    (hb : l.get? k = some (some b)) (h : ∀ m, m < k → l.get? m = some none) :
    firstKnown l = some (k, b) := by
  induction l generalizing k with
  | nil => simp at hb
  | cons x xs ih =>
    cases k with
    | zero =>
      have hx : x = some b := by simpa using hb
      subst hx
      rfl
    | succ k =>
      have hx : x = none := by
        have h0 := h 0 (Nat.succ_pos k)
        simpa using h0
      subst hx
      rw [firstKnown, ih k (by simpa using hb)
        (fun m hm => by simpa using h (m + 1) (by omega))]
      rfl

theorem firstKnown_none (l : List (Option ℚ)) (h : ∀ m, (l.get? m).join = none) :
    firstKnown l = none := by
  induction l with
  | nil => rfl
  | cons x xs ih =>
    have hx : x = none := by
      have h0 := h 0
      simpa using h0
    subst hx
    rw [firstKnown, ih (fun m => by simpa using h (m + 1))]
    rfl

theorem nextKnown_eq (l : List (Option ℚ)) (i j : ℕ) (b : ℚ)
    (hij : i < j) (hb : l.get? j = some (some b))
    (h : ∀ q, i < q → q < j → (l.get? q).join = none) :
    nextKnown l i = some (j, b) := by
  have hjlen : j < l.length := by
    by_contra hcon
    rw [List.get?_eq_none.mpr (by omega)] at hb
    cases hb
  have heq : i + 1 + (j - (i + 1)) = j := by omega
  have hdrop : (l.drop (i + 1)).get? (j - (i + 1)) = some (some b) := by
    rw [List.get?_drop, heq]
    exact hb
  have hpre : ∀ m, m < j - (i + 1) → (l.drop (i + 1)).get? m = some none := by
    intro m hm
    rw [List.get?_drop]
    exact join_none_of_lt l (i + 1 + m) (by omega) (h (i + 1 + m) (by omega) (by omega))
  rw [nextKnown, firstKnown_eq _ _ b hdrop hpre]
  simp [Option.map_some', heq]

theorem nextKnown_none (l : List (Option ℚ)) (i : ℕ)
    (h : ∀ q, i < q → (l.get? q).join = none) : nextKnown l i = none := by
  rw [nextKnown, firstKnown_none]
  · rfl
  · intro m
    rw [List.get?_drop]
    exact h (i + 1 + m) (by omega)

/-! ### Interpolation preserves known cells and full columns -/

theorem interpolate_cellAt_known (f : Frame) (i j : ℕ) (v : ℚ)
    (hi : i < f.index.length) (hir : i < f.rows.length) (hj : j < f.names.length)
    (hv : cellAt f i j = some v) :
    cellAt f.interpolate i j = some v := by
  rw [interpolate_cellAt f i j hi hir hj]
  apply interpAt_known
  rw [col_get?]
  cases hr : f.rows.get? i with
  | none =>
    rw [cellAt, hr] at hv
    simp at hv
  | some r =>
    rw [cellAt, hr] at hv
    simpa using hv

theorem interpolate_of_all_some (f : Frame)
    (hlen : f.rows.length = f.index.length)
    (hwf : ∀ r ∈ f.rows, r.length = f.names.length)
    (hsome : ∀ r ∈ f.rows, ∀ v ∈ r, v.isSome) :
    f.interpolate = f := by
  have hrows : f.interpolate.rows = f.rows := by
    apply List.ext_get?
    intro i
    by_cases hi : i < f.index.length
    · have hir : i < f.rows.length := by omega
      have hr : f.rows.get? i = some (f.rows.get ⟨i, hir⟩) := List.get?_eq_get hir
      set r := f.rows.get ⟨i, hir⟩ with hrdef
      have hrmem : r ∈ f.rows := List.get_mem f.rows i hir
      have hrlen : r.length = f.names.length := hwf r hrmem
      have hstep : f.interpolate.rows.get? i =
          some (((List.range f.names.length).map
            (fun j => interpolateLinear (f.col j))).map (fun c => (c.get? i).join)) := by
        simp [Frame.interpolate, List.get?_eq_getElem?, List.getElem?_map,
          List.getElem?_range hi]
      rw [hstep, hr]
      congr 1
      apply List.ext_get?
      intro j
      by_cases hj : j < f.names.length
      · have hcell : (f.col j).get? i = some ((r.get? j).join) := by
          rw [col_get?, hr]
          rfl
        obtain ⟨v, hv⟩ : ∃ v, r.get? j = some v := by
          have : j < r.length := by omega
          exact ⟨r.get ⟨j, this⟩, List.get?_eq_get this⟩
        obtain ⟨w, hw⟩ : ∃ w, v = some w := by
          have hvm : v ∈ r := List.get?_mem hv
          have := hsome r hrmem v hvm
          cases v with
          | none => simp at this
          | some w => exact ⟨w, rfl⟩
        subst hw
        have hinterp : interpAt (f.col j) i = some w := by
          apply interpAt_known
          rw [hcell, hv]
          rfl
        have hlgt : (interpolateLinear (f.col j)).get? i = some (interpAt (f.col j) i) :=
          interpolateLinear_get? (f.col j) i (by rw [col_length]; omega)
        simp only [List.get?_eq_getElem?] at hlgt ⊢
        rw [List.getElem?_map, List.getElem?_map, List.getElem?_range hj,
          Option.map_some', Option.map_some', hlgt]
        simp only [List.get?_eq_getElem?] at hv
        rw [hv, hinterp]
        rfl
      · have h1 : j ≥ r.length := by omega
        simp only [List.get?_eq_getElem?]
        rw [List.getElem?_map, List.getElem?_eq_none (by simpa using hj),
          List.getElem?_eq_none (by omega)]
        rfl
    · have h1 : f.interpolate.rows.get? i = none := by
        rw [List.get?_eq_none]
        rw [interpolate_rows_length]
        omega
      have h2 : f.rows.get? i = none := by
        rw [List.get?_eq_none]
        omega
      rw [h1, h2]
  have hrepr : f.interpolate = { f with rows := f.interpolate.rows } := rfl
  rw [hrepr, hrows]

/-! ### List utilities for alignment -/

theorem sorted_nodup_ext (l1 l2 : List ℤ) (s1 : l1.Sorted (· ≤ ·)) (s2 : l2.Sorted (· ≤ ·))
    (n1 : l1.Nodup) (n2 : l2.Nodup) (h : ∀ t, t ∈ l1 ↔ t ∈ l2) : l1 = l2 :=
  List.eq_of_perm_of_sorted ((List.perm_ext_iff_of_nodup n1 n2).mpr h) s1 s2

theorem zip_map_self (l : List ℤ) (g : ℤ → List (Option ℚ)) :
    l.zip (l.map g) = l.map (fun t => (t, g t)) := by
  induction l with
  | nil => rfl
  | cons x xs ih => simp [ih]

theorem find?_keyed (l : List ℤ) (g : ℤ → List (Option ℚ)) (t : ℤ) (h : t ∈ l) :
    (l.map (fun x => (x, g x))).find? (fun p => decide (p.1 = t)) = some (t, g t) := by
  induction l with
  | nil => cases h
  | cons x xs ih =>
    rw [List.map_cons]
    by_cases hx : x = t
    · subst hx
      rw [List.find?_cons_of_pos _ (by simp)]
    · rw [List.find?_cons_of_neg _ (by simp [hx])]
      rcases List.mem_cons.mp h with h' | h'
      · exact absurd h'.symm hx
      · exact ih h'

theorem find?_keyed_nodup (pairs : List (ℤ × List (Option ℚ))) (t : ℤ)
    (r : List (Option ℚ)) (hnd : (pairs.map Prod.fst).Nodup) (hmem : (t, r) ∈ pairs) :
    pairs.find? (fun p => decide (p.1 = t)) = some (t, r) := by
  induction pairs with
  | nil => cases hmem
  | cons x xs ih =>
    rcases List.mem_cons.mp hmem with h' | h'
    · subst h'
      rw [List.find?_cons_of_pos _ (by simp)]
    · have hx : x.1 ≠ t := by
        intro hxt
        rw [List.map_cons, List.nodup_cons] at hnd
        exact hnd.1 (hxt ▸ List.mem_map_of_mem Prod.fst h')
      rw [List.find?_cons_of_neg _ (by simp [hx])]
      rw [List.map_cons, List.nodup_cons] at hnd
      exact ih hnd.2 h'

theorem map_fst_zip_filter (l : List ℤ) (r : List (List (Option ℚ))) (p : ℤ → Bool)
    (h : r.length = l.length) :
    (((l.zip r).filter (fun x => p x.1)).map Prod.fst) = l.filter p := by
  induction l generalizing r with
  | nil => simp
  | cons x xs ih =>
    cases r with
    | nil => simp at h
    | cons y ys =>
      rw [List.zip_cons_cons, List.filter_cons, List.filter_cons]
      by_cases hp : p x = true
      · simp only [hp, if_true, List.map_cons]
        rw [ih ys (by simpa using h)]
      · simp [hp, ih ys (by simpa using h)]

theorem zip_map_fst_snd (l : List (ℤ × List (Option ℚ))) :
    (l.map Prod.fst).zip (l.map Prod.snd) = l := by
  induction l with
  | nil => rfl
  | cons x xs ih => simp [ih]

/-! ### Facts about trim -/

theorem trim_names (f : Frame) (a b : ℤ) : (f.trim a b).names = f.names := rfl

theorem trim_index (f : Frame) (a b : ℤ) (hlen : f.rows.length = f.index.length) :
    (f.trim a b).index = f.index.filter (fun t => inRange a b t) :=
  map_fst_zip_filter f.index f.rows (fun t => inRange a b t) hlen

theorem trim_rows_length (f : Frame) (a b : ℤ) :
    (f.trim a b).rows.length = (f.trim a b).index.length := by
  simp [Frame.trim]

theorem trim_zip (f : Frame) (a b : ℤ) :
    (f.trim a b).index.zip (f.trim a b).rows =
      (f.index.zip f.rows).filter (fun p => inRange a b p.1) :=
  zip_map_fst_snd _

theorem trim_rows_sub (f : Frame) (a b : ℤ) :
    ∀ r ∈ (f.trim a b).rows, r ∈ f.rows := by
  intro r hr
  obtain ⟨pr, hpr, rfl⟩ := List.mem_map.mp hr
  exact (List.of_mem_zip (List.mem_of_mem_filter hpr)).2

theorem gridIdx_filter (lo hi a b : ℤ) (h1 : lo ≤ a) (h2 : b ≤ hi) :
    (gridIdx lo hi).filter (fun t => inRange a b t) = gridIdx a b := by
  apply sorted_nodup_ext
  · exact (gridIdx_sorted_le lo hi).filter _
  · exact gridIdx_sorted_le a b
  · exact (gridIdx_nodup lo hi).filter _
  · exact gridIdx_nodup a b
  · intro t
    simp only [List.mem_filter, mem_gridIdx, inRange, decide_eq_true_eq]
    omega

theorem trim_grid_index (f : Frame) (lo hi a b : ℤ)
    (hidx : f.index = gridIdx lo hi) (hlen : f.rows.length = f.index.length)
    (h1 : lo ≤ a) (h2 : b ≤ hi) :
    (f.trim a b).index = gridIdx a b := by
  rw [trim_index f a b hlen, hidx, gridIdx_filter lo hi a b h1 h2]

/-! ### Facts about concatFrames and unionIndex -/

theorem unionIndex_eq (fs : List Frame) (L : List ℤ) (hne : fs ≠ [])
    (hall : ∀ f ∈ fs, f.index = L) (hs : L.Sorted (· ≤ ·)) (hn : L.Nodup) :
    unionIndex fs = L := by
  apply sorted_nodup_ext
  · exact List.sorted_insertionSort _ _
  · exact hs
  · exact ((List.perm_insertionSort _ _).nodup_iff).mpr (List.nodup_dedup _)
  · exact hn
  · intro t
    rw [unionIndex, List.Perm.mem_iff (List.perm_insertionSort _ _), List.mem_dedup]
    simp only [List.mem_flatten, List.mem_map]
    constructor
    · rintro ⟨l', ⟨f, hf, rfl⟩, ht⟩
      rwa [hall f hf] at ht
    · intro ht
      obtain ⟨f, hf⟩ := List.exists_mem_of_ne_nil fs hne
      exact ⟨f.index, ⟨f, hf, rfl⟩, by rwa [hall f hf]⟩

/-! ### Facts about merge_data -/

/-- The shape every reader output has: a complete minute grid as index and
one row list per index label. -/
def IsGridFrame (f : Frame) (lo hi : ℤ) : Prop :=
  f.index = gridIdx lo hi ∧ lo ≤ hi ∧ f.rows.length = f.index.length

theorem grid_idxMin (f : Frame) (lo hi : ℤ) (h : IsGridFrame f lo hi) : f.idxMin = lo := by
  rw [Frame.idxMin, h.1, listMin_gridIdx lo hi h.2.1]

theorem grid_idxMax (f : Frame) (lo hi : ℤ) (h : IsGridFrame f lo hi) : f.idxMax = hi := by
  rw [Frame.idxMax, h.1, listMax_gridIdx lo hi h.2.1]

theorem merge_data_def (p s o : Frame) :
    merge_data p s o = concatFrames
      [p.trim (max (max p.idxMin s.idxMin) o.idxMin) (min (min p.idxMax s.idxMax) o.idxMax),
       s.trim (max (max p.idxMin s.idxMin) o.idxMin) (min (min p.idxMax s.idxMax) o.idxMax),
       o.trim (max (max p.idxMin s.idxMin) o.idxMin) (min (min p.idxMax s.idxMax) o.idxMax)] :=
  rfl

theorem concat_index_eq (f1 f2 f3 : Frame) (L : List ℤ)
    (h1 : f1.index = L) (h2 : f2.index = L) (h3 : f3.index = L)
    (hs : L.Sorted (· ≤ ·)) (hn : L.Nodup) :
    (concatFrames [f1, f2, f3]).index = L := by
  refine unionIndex_eq _ L (by simp) ?_ hs hn
  intro f hf
  rcases List.mem_cons.mp hf with rfl | hf
  · exact h1
  rcases List.mem_cons.mp hf with rfl | hf
  · exact h2
  rcases List.mem_cons.mp hf with rfl | hf
  · exact h3
  cases hf

theorem merge_data_index (p s o : Frame) (pl ph sl sh ol oh : ℤ)
    (hp : IsGridFrame p pl ph) (hs : IsGridFrame s sl sh) (ho : IsGridFrame o ol oh) :
    (merge_data p s o).index = gridIdx (max (max pl sl) ol) (min (min ph sh) oh) := by
  rw [merge_data_def p s o, grid_idxMin p pl ph hp, grid_idxMin s sl sh hs,
    grid_idxMin o ol oh ho, grid_idxMax p pl ph hp, grid_idxMax s sl sh hs,
    grid_idxMax o ol oh ho]
  exact concat_index_eq _ _ _ _
    (trim_grid_index p pl ph _ _ hp.1 hp.2.2 (by omega) (by omega))
    (trim_grid_index s sl sh _ _ hs.1 hs.2.2 (by omega) (by omega))
    (trim_grid_index o ol oh _ _ ho.1 ho.2.2 (by omega) (by omega))
    (gridIdx_sorted_le _ _) (gridIdx_nodup _ _)

theorem merge_data_names (p s o : Frame) :
    (merge_data p s o).names = p.names ++ s.names ++ o.names := by
  rw [merge_data_def]
  show ([p.names, s.names, o.names]).flatten = p.names ++ s.names ++ o.names
  simp

/-! ### Row lookup -/

theorem map_fst_zip_sublist (l : List ℤ) (r : List (List (Option ℚ))) :
    ((l.zip r).map Prod.fst).Sublist l := by
  induction l generalizing r with
  | nil => simp
  | cons x xs ih =>
    cases r with
    | nil => simp
    | cons y ys =>
      rw [List.zip_cons_cons, List.map_cons]
      exact List.Sublist.cons₂ x (ih ys)

theorem rowAt_of_mem (f : Frame) (t : ℤ) (r : List (Option ℚ))
    (hnd : f.index.Nodup) (hmem : (t, r) ∈ f.index.zip f.rows) :
    f.rowAt t = r := by
  have hnd' : ((f.index.zip f.rows).map Prod.fst).Nodup :=
    hnd.sublist (map_fst_zip_sublist f.index f.rows)
  rw [Frame.rowAt, find?_keyed_nodup (f.index.zip f.rows) t r hnd' hmem]

theorem concat_rowAt (fs : List Frame) (t : ℤ) (ht : t ∈ unionIndex fs) :
    (concatFrames fs).rowAt t = (fs.map (fun f => f.rowAt t)).flatten := by
  have hz : (concatFrames fs).index.zip (concatFrames fs).rows =
      (unionIndex fs).map (fun x => (x, (fs.map (fun f => f.rowAt x)).flatten)) :=
    zip_map_self _ _
  have hfind : ((concatFrames fs).index.zip (concatFrames fs).rows).find?
      (fun pr => decide (pr.1 = t)) = some (t, (fs.map (fun f => f.rowAt t)).flatten) := by
    rw [hz]
    exact find?_keyed _ _ t ht
  rw [Frame.rowAt, hfind]

theorem trim_index_nodup (f : Frame) (a b : ℤ) (hnd : f.index.Nodup)
    (hlen : f.rows.length = f.index.length) : (f.trim a b).index.Nodup := by
  rw [trim_index f a b hlen]
  exact hnd.filter _

theorem trim_rowAt (f : Frame) (a b t : ℤ) (hnd : f.index.Nodup)
    (ht : t ∈ (f.trim a b).index) :
    (f.trim a b).rowAt t = f.rowAt t := by
  have ht' : t ∈ ((f.index.zip f.rows).filter (fun pr => inRange a b pr.1)).map Prod.fst := ht
  obtain ⟨pr, hpr, hfst⟩ := List.mem_map.mp ht'
  obtain ⟨t', r⟩ := pr
  have hfst' : t' = t := hfst
  have hpr' : (t', r) ∈ (f.index.zip f.rows).filter (fun pr => inRange a b pr.1) := hpr
  have h1 : f.rowAt t' = r :=
    rowAt_of_mem f t' r hnd (List.mem_of_mem_filter hpr')
  have hndt : (f.trim a b).index.Nodup := by
    have hsub : (f.trim a b).index.Sublist f.index := by
      have h2 := map_fst_zip_sublist f.index f.rows
      have h3 : ((f.index.zip f.rows).filter (fun pr => inRange a b pr.1)).Sublist
          (f.index.zip f.rows) := List.filter_sublist _
      exact (h3.map Prod.fst).trans h2
    exact hnd.sublist hsub
  have h2 : (f.trim a b).rowAt t' = r := by
    refine rowAt_of_mem _ t' r hndt ?_
    rw [trim_zip]
    exact hpr'
  rw [← hfst', h1, h2]

theorem rowAt_length (f : Frame) (t : ℤ)
    (hwf : ∀ r ∈ f.rows, r.length = f.names.length) :
    (f.rowAt t).length = f.names.length := by
  cases hfind : (f.index.zip f.rows).find? (fun pr => decide (pr.1 = t)) with
  | none =>
    rw [Frame.rowAt, hfind]
    simp
  | some pr =>
    rw [Frame.rowAt, hfind]
    exact hwf pr.2 (List.of_mem_zip (List.mem_of_find?_eq_some hfind)).2

/-! ### Column lookup -/

theorem colIdx_lt_length (c : Chan) : ∀ (l : List Chan) (j : ℕ),
    colIdx c l = some j → j < l.length := by
  intro l
  induction l with
  | nil =>
    intro j h
    cases h
  | cons n ns ih =>
    intro j h
    rw [colIdx] at h
    by_cases hn : n = c
    · rw [if_pos hn] at h
      cases h
      simp
    · rw [if_neg hn] at h
      obtain ⟨j', hj', rfl⟩ := Option.map_eq_some'.mp h
      have := ih j' hj'
      rw [List.length_cons]
      omega

theorem colIdx_append_left (c : Chan) (l1 l2 : List Chan) (j : ℕ)
    (h : colIdx c l1 = some j) : colIdx c (l1 ++ l2) = some j := by
  induction l1 generalizing j with
  | nil => cases h
  | cons n ns ih =>
    rw [List.cons_append, colIdx]
    rw [colIdx] at h
    by_cases hn : n = c
    · rw [if_pos hn] at h ⊢
      exact h
    · rw [if_neg hn] at h ⊢
      obtain ⟨j', hj', rfl⟩ := Option.map_eq_some'.mp h
      rw [ih j' hj']
      rfl

theorem colIdx_append_right (c : Chan) (l1 l2 : List Chan) (hc : c ∉ l1) :
    colIdx c (l1 ++ l2) = (colIdx c l2).map (fun j => j + l1.length) := by
  induction l1 with
  | nil => simp
  | cons n ns ih =>
    have hn : n ≠ c := fun h => hc (h ▸ List.mem_cons_self n ns)
    rw [List.cons_append, colIdx, if_neg hn, ih (fun h => hc (List.mem_cons_of_mem n h))]
    cases colIdx c l2 with
    | none => rfl
    | some j =>
      simp only [Option.map_some', List.length_cons]
      exact congrArg some (by omega)

theorem colIdx_of_mem (c : Chan) (l : List Chan) (h : c ∈ l) :
    ∃ j, colIdx c l = some j := by
  induction l with
  | nil => cases h
  | cons n ns ih =>
    by_cases hn : n = c
    · exact ⟨0, by rw [colIdx, if_pos hn]⟩
    · have hcn : c ∈ ns := by
        rcases List.mem_cons.mp h with h' | h'
        · exact absurd h'.symm hn
        · exact h'
      obtain ⟨j, hj⟩ := ih hcn
      refine ⟨j + 1, ?_⟩
      rw [colIdx, if_neg hn, hj]
      rfl

/-! ### Facts about the pulse reader -/

theorem pulseRecords_cons_ok (item : PulseItem) (rest : List PulseItem) (ms v : ℚ)
    (h1 : numOf item.startGMT = some ms) (h2 : numOf item.value = some v) :
    pulseRecords (item :: rest) =
      (pulseRecords rest).map (fun rs => (ms / 1000, [some v]) :: rs) := by
  rw [pulseRecords, h1, h2]

theorem pulseRecords_cons_err (item : PulseItem) (rest : List PulseItem)
    (h : numOf item.startGMT = none ∨ numOf item.value = none) :
    pulseRecords (item :: rest) = .error .malformedInput := by
  rw [pulseRecords]
  rcases h with h | h
  · rw [h]
  · cases hx : numOf item.startGMT with
    | none => rfl
    | some ms => rw [h]

theorem pulseRecords_err_of_bad (data : List PulseItem)
    (h : ∃ item ∈ data, numOf item.startGMT = none ∨ numOf item.value = none) :
    pulseRecords data = .error .malformedInput := by
  induction data with
  | nil =>
    obtain ⟨item, him, _⟩ := h
    cases him
  | cons it rest ih =>
    obtain ⟨item, him, hbad⟩ := h
    rcases List.mem_cons.mp him with rfl | him'
    · exact pulseRecords_cons_err _ _ hbad
    · cases h1 : numOf it.startGMT with
      | none => exact pulseRecords_cons_err _ _ (Or.inl h1)
      | some ms =>
        cases h2 : numOf it.value with
        | none => exact pulseRecords_cons_err _ _ (Or.inr h2)
        | some v =>
          rw [pulseRecords_cons_ok it rest ms v h1 h2, ih ⟨item, him', hbad⟩]
          rfl

theorem pulseRecords_ok_of_good (data : List PulseItem)
    (h : ∀ item ∈ data,
      (∃ q, numOf item.startGMT = some q) ∧ (∃ q, numOf item.value = some q)) :
    ∃ recs, pulseRecords data = .ok recs ∧ recs.length = data.length := by
  induction data with
  | nil => exact ⟨[], rfl, rfl⟩
  | cons it rest ih =>
    obtain ⟨⟨ms, h1⟩, ⟨v, h2⟩⟩ := h it (List.mem_cons_self it rest)
    obtain ⟨recs, hok, hlen⟩ := ih (fun item him => h item (List.mem_cons_of_mem it him))
    refine ⟨(ms / 1000, [some v]) :: recs, ?_, by simp [hlen]⟩
    rw [pulseRecords_cons_ok it rest ms v h1 h2, hok]
    rfl

theorem pulseRecords_shape (data : List PulseItem) :
    ∀ recs, pulseRecords data = .ok recs → ∀ r ∈ recs, ∃ v, r.2 = [some v] := by
  induction data with
  | nil =>
    intro recs h r hr
    cases h
    cases hr
  | cons it rest ih =>
    intro recs h r hr
    cases h1 : numOf it.startGMT with
    | none =>
      rw [pulseRecords_cons_err _ _ (Or.inl h1)] at h
      cases h
    | some ms =>
      cases h2 : numOf it.value with
      | none =>
        rw [pulseRecords_cons_err _ _ (Or.inr h2)] at h
        cases h
      | some v =>
        rw [pulseRecords_cons_ok it rest ms v h1 h2] at h
        cases hrec : pulseRecords rest with
        | error e =>
          rw [hrec] at h
          cases h
        | ok rs =>
          rw [hrec] at h
          cases h
          rcases List.mem_cons.mp hr with rfl | hr'
          · exact ⟨v, rfl⟩
          · exact ih rs hrec r hr'

theorem parse_pulse_ok (data : List PulseItem) (recs : List Rec) (f : Frame)
    (hrec : pulseRecords data = .ok recs) (hf : parse_garmin_pulse data = .ok f) :
    recs ≠ [] ∧ f = Frame.interpolate (resample [.heart_rate] recs) := by
  rw [parse_garmin_pulse, hrec] at hf
  cases recs with
  | nil => cases hf
  | cons r rs =>
    cases hf
    exact ⟨List.cons_ne_nil r rs, rfl⟩

theorem parse_spo2_ok (data : List SpoRec) (g : Frame)
    (hg : parse_garmin_spo2 data = .ok g) :
    data ≠ [] ∧ g = resample [.garmin_spo2, .garmin_confidence]
      (data.map (fun r => (r.ts, [r.spo2, r.conf]))) := by
  cases data with
  | nil => cases hg
  | cons d ds =>
    cases hg
    exact ⟨List.cons_ne_nil d ds, rfl⟩

theorem parse_o2ring_ok (rows : List O2Row) (h : Frame)
    (hh : parse_o2ring_csv rows = .ok h) :
    rows ≠ [] ∧ h = resample [.o2ring_spo2, .o2ring_pulse, .o2ring_motion]
      (rows.map (fun r =>
        (r.time, [toNumeric r.oxygen, toNumeric r.pulse, toNumeric r.motion]))) := by
  cases rows with
  | nil => cases hh
  | cons d ds =>
    cases hh
    exact ⟨List.cons_ne_nil d ds, rfl⟩

/-! ### Floored extrema of the raw timestamps -/

/-- Minimum of a list of rationals (0 on the empty list). -/
def qListMin : List ℚ → ℚ
  | [] => 0
  | x :: xs => xs.foldl min x

/-- Maximum of a list of rationals (0 on the empty list). -/
def qListMax : List ℚ → ℚ
  | [] => 0
  | x :: xs => xs.foldl max x

theorem bucket_mono (a b : ℚ) (h : a ≤ b) : bucket a ≤ bucket b := by
  apply Int.floor_le_floor
  exact div_le_div_of_nonneg_right h (by norm_num)

theorem bucket_min (a b : ℚ) : bucket (min a b) = min (bucket a) (bucket b) := by
  rcases le_total a b with h | h
  · rw [min_eq_left h, min_eq_left (bucket_mono a b h)]
  · rw [min_eq_right h, min_eq_right (bucket_mono b a h)]

theorem bucket_max (a b : ℚ) : bucket (max a b) = max (bucket a) (bucket b) := by
  rcases le_total a b with h | h
  · rw [max_eq_right h, max_eq_right (bucket_mono a b h)]
  · rw [max_eq_left h, max_eq_left (bucket_mono b a h)]

theorem bucket_foldl_min (l : List ℚ) (a : ℚ) :
    bucket (l.foldl min a) = (l.map bucket).foldl min (bucket a) := by
  induction l generalizing a with
  | nil => rfl
  | cons x xs ih =>
    rw [List.foldl_cons, List.map_cons, List.foldl_cons, ih, bucket_min]

theorem bucket_foldl_max (l : List ℚ) (a : ℚ) :
    bucket (l.foldl max a) = (l.map bucket).foldl max (bucket a) := by
  induction l generalizing a with
  | nil => rfl
  | cons x xs ih =>
    rw [List.foldl_cons, List.map_cons, List.foldl_cons, ih, bucket_max]

theorem bucket_qListMin (ts : List ℚ) (h : ts ≠ []) :
    bucket (qListMin ts) = listMin (ts.map bucket) := by
  cases ts with
  | nil => exact absurd rfl h
  | cons x xs =>
    show bucket (xs.foldl min x) = (xs.map bucket).foldl min (bucket x)
    exact bucket_foldl_min xs x

theorem bucket_qListMax (ts : List ℚ) (h : ts ≠ []) :
    bucket (qListMax ts) = listMax (ts.map bucket) := by
  cases ts with
  | nil => exact absurd rfl h
  | cons x xs =>
    show bucket (xs.foldl max x) = (xs.map bucket).foldl max (bucket x)
    exact bucket_foldl_max xs x

/-! ### Grid coverage, as the specification states it -/

/-- The per-minute grid property of a resampled frame with respect to the
raw timestamps it came from: a row exists exactly for every minute label
in the closed interval from the earliest raw timestamp floored to the
minute to the latest raw timestamp floored to the minute, consecutive
labels differ by exactly one minute, no label repeats, and there is one
row list per label. -/
def coversMinutes (f : Frame) (ts : List ℚ) : Prop :=
  (∀ t : ℤ, t ∈ f.index ↔ bucket (qListMin ts) ≤ t ∧ t ≤ bucket (qListMax ts)) ∧
  List.Chain' (fun a b => b = a + 1) f.index ∧
  f.index.Nodup ∧
  f.rows.length = f.index.length

theorem resample_covers (names : List Chan) (recs : List Rec) (h : recs ≠ []) :
    coversMinutes (resample names recs) (recs.map Prod.fst) := by
  have hmapne : recs.map Prod.fst ≠ [] := by simpa using h
  have hbmin : bucket (qListMin (recs.map Prod.fst)) =
      listMin (recs.map (fun r => bucket r.1)) := by
    rw [bucket_qListMin _ hmapne, List.map_map]
    rfl
  have hbmax : bucket (qListMax (recs.map Prod.fst)) =
      listMax (recs.map (fun r => bucket r.1)) := by
    rw [bucket_qListMax _ hmapne, List.map_map]
    rfl
  refine ⟨?_, ?_, ?_, ?_⟩
  · intro t
    rw [resample_index names recs h, mem_gridIdx, hbmin, hbmax]
  · rw [resample_index names recs h]
    exact gridIdx_chain _ _
  · rw [resample_index names recs h]
    exact gridIdx_nodup _ _
  · exact resample_rows_length names recs

/-! ### The mean never invents values -/

theorem meanQ_nil : meanQ [] = none := rfl

theorem meanQ_eq_none_iff (xs : List ℚ) : meanQ xs = none ↔ xs = [] := by
  rw [meanQ]
  by_cases h : xs.isEmpty
  · simp [h, List.isEmpty_iff.mp h]
  · simp [h]
    intro hc
    exact h (by simp [hc, List.isEmpty_iff])

theorem meanQ_ne_nil (xs : List ℚ) (h : xs ≠ []) :
    meanQ xs = some (xs.sum / (xs.length : ℚ)) := by
  rw [meanQ, if_neg (by simpa [List.isEmpty_iff] using h)]

/-! ### Cells of the merged table -/

theorem grid_nodup (f : Frame) (lo hi : ℤ) (h : IsGridFrame f lo hi) : f.index.Nodup := by
  rw [h.1]
  exact gridIdx_nodup lo hi

theorem merge_rowAt_eq (p s o : Frame) (pl ph sl sh ol oh : ℤ)
    (hp : IsGridFrame p pl ph) (hs : IsGridFrame s sl sh) (ho : IsGridFrame o ol oh)
    (t : ℤ) (ht : t ∈ (merge_data p s o).index) :
    (merge_data p s o).rowAt t = p.rowAt t ++ (s.rowAt t ++ (o.rowAt t ++ [])) := by
  set a := max (max pl sl) ol with ha
  set b := min (min ph sh) oh with hb
  have hmins : max (max p.idxMin s.idxMin) o.idxMin = a := by
    rw [grid_idxMin p pl ph hp, grid_idxMin s sl sh hs, grid_idxMin o ol oh ho]
  have hmaxs : min (min p.idxMax s.idxMax) o.idxMax = b := by
    rw [grid_idxMax p pl ph hp, grid_idxMax s sl sh hs, grid_idxMax o ol oh ho]
  have hpt : (p.trim a b).index = gridIdx a b :=
    trim_grid_index p pl ph a b hp.1 hp.2.2 (by omega) (by omega)
  have hst : (s.trim a b).index = gridIdx a b :=
    trim_grid_index s sl sh a b hs.1 hs.2.2 (by omega) (by omega)
  have hot : (o.trim a b).index = gridIdx a b :=
    trim_grid_index o ol oh a b ho.1 ho.2.2 (by omega) (by omega)
  have hmidx : (merge_data p s o).index = gridIdx a b :=
    merge_data_index p s o pl ph sl sh ol oh hp hs ho
  have htg : t ∈ gridIdx a b := by rwa [hmidx] at ht
  have hunion : unionIndex [p.trim a b, s.trim a b, o.trim a b] = gridIdx a b := by
    refine unionIndex_eq _ _ (by simp) ?_ (gridIdx_sorted_le a b) (gridIdx_nodup a b)
    intro f hf
    rcases List.mem_cons.mp hf with rfl | hf
    · exact hpt
    rcases List.mem_cons.mp hf with rfl | hf
    · exact hst
    rcases List.mem_cons.mp hf with rfl | hf
    · exact hot
    cases hf
  rw [merge_data_def, hmins, hmaxs]
  rw [concat_rowAt [p.trim a b, s.trim a b, o.trim a b] t (by rw [hunion]; exact htg)]
  simp only [List.map_cons, List.map_nil, List.flatten_cons, List.flatten_nil]
  rw [trim_rowAt p a b t (grid_nodup p pl ph hp) (by rw [hpt]; exact htg),
    trim_rowAt s a b t (grid_nodup s sl sh hs) (by rw [hst]; exact htg),
    trim_rowAt o a b t (grid_nodup o ol oh ho) (by rw [hot]; exact htg)]

theorem merge_cell_p (p s o : Frame) (pl ph sl sh ol oh : ℤ)
    (hp : IsGridFrame p pl ph) (hs : IsGridFrame s sl sh) (ho : IsGridFrame o ol oh)
    (hpw : ∀ r ∈ p.rows, r.length = p.names.length)
    (c : Chan) (hc : c ∈ p.names) (t : ℤ) (ht : t ∈ (merge_data p s o).index) :
    (merge_data p s o).cell t c = p.cell t c := by
  obtain ⟨j, hj⟩ := colIdx_of_mem c p.names hc
  have hjlt : j < p.names.length := colIdx_lt_length c p.names j hj
  have hcol : colIdx c (merge_data p s o).names = some j := by
    rw [merge_data_names]
    exact colIdx_append_left c (p.names ++ s.names) o.names j
      (colIdx_append_left c p.names s.names j hj)
  have hlenA : (p.rowAt t).length = p.names.length := rowAt_length p t hpw
  simp only [Frame.cell, hcol, hj]
  rw [merge_rowAt_eq p s o pl ph sl sh ol oh hp hs ho t ht]
  simp only [List.get?_eq_getElem?]
  rw [List.getElem?_append_left (by omega)]

theorem merge_cell_s (p s o : Frame) (pl ph sl sh ol oh : ℤ)
    (hp : IsGridFrame p pl ph) (hs : IsGridFrame s sl sh) (ho : IsGridFrame o ol oh)
    (hpw : ∀ r ∈ p.rows, r.length = p.names.length)
    (hsw : ∀ r ∈ s.rows, r.length = s.names.length)
    (c : Chan) (hc : c ∈ s.names) (hcp : c ∉ p.names)
    (t : ℤ) (ht : t ∈ (merge_data p s o).index) :
    (merge_data p s o).cell t c = s.cell t c := by
  obtain ⟨j, hj⟩ := colIdx_of_mem c s.names hc
  have hjlt : j < s.names.length := colIdx_lt_length c s.names j hj
  have hcol : colIdx c (merge_data p s o).names = some (j + p.names.length) := by
    rw [merge_data_names, List.append_assoc, colIdx_append_right c p.names _ hcp,
      colIdx_append_left c s.names o.names j hj]
    rfl
  have hlenA : (p.rowAt t).length = p.names.length := rowAt_length p t hpw
  have hlenB : (s.rowAt t).length = s.names.length := rowAt_length s t hsw
  simp only [Frame.cell, hcol, hj]
  rw [merge_rowAt_eq p s o pl ph sl sh ol oh hp hs ho t ht]
  simp only [List.get?_eq_getElem?]
  rw [List.getElem?_append_right (by omega)]
  have hidx : j + p.names.length - (p.rowAt t).length = j := by omega
  rw [hidx, List.getElem?_append_left (by omega)]

theorem merge_cell_o (p s o : Frame) (pl ph sl sh ol oh : ℤ)
    (hp : IsGridFrame p pl ph) (hs : IsGridFrame s sl sh) (ho : IsGridFrame o ol oh)
    (hpw : ∀ r ∈ p.rows, r.length = p.names.length)
    (hsw : ∀ r ∈ s.rows, r.length = s.names.length)
    (how : ∀ r ∈ o.rows, r.length = o.names.length)
    (c : Chan) (hc : c ∈ o.names) (hcp : c ∉ p.names) (hcs : c ∉ s.names)
    (t : ℤ) (ht : t ∈ (merge_data p s o).index) :
    (merge_data p s o).cell t c = o.cell t c := by
  obtain ⟨j, hj⟩ := colIdx_of_mem c o.names hc
  have hjlt : j < o.names.length := colIdx_lt_length c o.names j hj
  have hcol : colIdx c (merge_data p s o).names =
      some (j + (p.names.length + s.names.length)) := by
    rw [merge_data_names, colIdx_append_right c (p.names ++ s.names) o.names
      (by simp [hcp, hcs]), hj, Option.map_some', List.length_append]
  have hlenA : (p.rowAt t).length = p.names.length := rowAt_length p t hpw
  have hlenB : (s.rowAt t).length = s.names.length := rowAt_length s t hsw
  have hlenC : (o.rowAt t).length = o.names.length := rowAt_length o t how
  simp only [Frame.cell, hcol, hj]
  rw [merge_rowAt_eq p s o pl ph sl sh ol oh hp hs ho t ht]
  simp only [List.get?_eq_getElem?]
  rw [List.getElem?_append_right (by omega)]
  have hidx1 : j + (p.names.length + s.names.length) - (p.rowAt t).length =
      j + s.names.length := by omega
  rw [hidx1, List.getElem?_append_right (by omega)]
  have hidx2 : j + s.names.length - (s.rowAt t).length = j := by omega
  rw [hidx2, List.getElem?_append_left (by omega)]

/-! ### Small facts used by the claims -/

theorem chanVals_ne_nil (recs : List Rec) (hsh : ∀ r ∈ recs, ∃ v, r.2 = [some v])
    (hne : recs ≠ []) : chanVals recs 0 ≠ [] := by
  obtain ⟨r, hr⟩ := List.exists_mem_of_ne_nil recs hne
  obtain ⟨v, hv⟩ := hsh r hr
  have hvmem : v ∈ chanVals recs 0 :=
    List.mem_filterMap.mpr ⟨r, hr, by rw [hv]; rfl⟩
  exact List.ne_nil_of_mem hvmem

theorem prevKnown_none (l : List (Option ℚ)) :
    ∀ i, (∀ q, q ≤ i → (l.get? q).join = none) → prevKnown l i = none := by
  intro i
  induction i with
  | zero =>
    intro h
    rw [prevKnown, h 0 (le_refl 0)]
    rfl
  | succ i ih =>
    intro h
    simp only [prevKnown, h (i + 1) (le_refl _)]
    exact ih (fun q hq => h q (by omega))

theorem mem_bucketRecs (recs : List Rec) (r : Rec) (b : ℤ)
    (hr : r ∈ recs) (hb : bucket r.1 = b) : r ∈ bucketRecs recs b :=
  List.mem_filter.mpr ⟨hr, by simp [hb]⟩

theorem exists_rec_at_min (recs : List Rec) (h : recs ≠ []) :
    ∃ r ∈ recs, bucket r.1 = listMin (recs.map (fun r => bucket r.1)) := by
  have hmem := listMin_mem (recs.map (fun r => bucket r.1)) (by simpa using h)
  obtain ⟨r, hr, heq⟩ := List.mem_map.mp hmem
  exact ⟨r, hr, heq⟩

theorem exists_rec_at_max (recs : List Rec) (h : recs ≠ []) :
    ∃ r ∈ recs, bucket r.1 = listMax (recs.map (fun r => bucket r.1)) := by
  have hmem := listMax_mem (recs.map (fun r => bucket r.1)) (by simpa using h)
  obtain ⟨r, hr, heq⟩ := List.mem_map.mp hmem
  exact ⟨r, hr, heq⟩

theorem resample_first_label (names : List Chan) (recs : List Rec) (h : recs ≠ []) :
    (resample names recs).index.get? 0 =
      some (listMin (recs.map (fun r => bucket r.1))) := by
  have hle := listMin_le_listMax (recs.map (fun r => bucket r.1)) (by simpa using h)
  rw [resample_index names recs h, gridIdx_get? _ _ 0 (by push_cast; omega)]
  norm_num

theorem resample_last_label (names : List Chan) (recs : List Rec) (h : recs ≠ []) :
    (resample names recs).index.get? ((resample names recs).index.length - 1) =
      some (listMax (recs.map (fun r => bucket r.1))) := by
  set lo := listMin (recs.map (fun r => bucket r.1)) with hlo
  set hi := listMax (recs.map (fun r => bucket r.1)) with hhi
  have hle : lo ≤ hi := listMin_le_listMax _ (by simpa using h)
  have hlen : (resample names recs).index.length = (hi + 1 - lo).toNat := by
    rw [resample_index names recs h, gridIdx_length]
  rw [resample_index names recs h] at hlen ⊢
  rw [hlen, gridIdx_get? _ _ ((hi + 1 - lo).toNat - 1) (by omega)]
  congr 1
  omega

theorem meanQ_isSome (xs : List ℚ) (h : xs ≠ []) : (meanQ xs).isSome := by
  rw [meanQ_ne_nil xs h]
  rfl

theorem resample_boundary_cell (names : List Chan) (recs : List Rec) (h : recs ≠ [])
    (hall : ∀ r ∈ recs, ∀ j, j < names.length → ∃ v, (r.2.get? j).join = some v)
    (j : ℕ) (hj : j < names.length) :
    ∃ v w, cellAt (resample names recs) 0 j = some v ∧
      cellAt (resample names recs) ((resample names recs).index.length - 1) j = some w := by
  have hvals : ∀ b, (∃ r ∈ recs, bucket r.1 = b) →
      chanVals (bucketRecs recs b) j ≠ [] := by
    rintro b ⟨r, hr, hb⟩
    obtain ⟨v, hv⟩ := hall r hr j hj
    have hvmem : v ∈ chanVals (bucketRecs recs b) j :=
      List.mem_filterMap.mpr ⟨r, mem_bucketRecs recs r b hr hb, hv⟩
    exact List.ne_nil_of_mem hvmem
  have h1 : chanVals (bucketRecs recs (listMin (recs.map (fun r => bucket r.1)))) j ≠ [] :=
    hvals _ (exists_rec_at_min recs h)
  have h2 : chanVals (bucketRecs recs (listMax (recs.map (fun r => bucket r.1)))) j ≠ [] :=
    hvals _ (exists_rec_at_max recs h)
  have hc1 := resample_cellAt names recs h 0 j _ (resample_first_label names recs h) hj
  have hc2 := resample_cellAt names recs h ((resample names recs).index.length - 1) j _
    (resample_last_label names recs h) hj
  rw [meanQ_ne_nil _ h1] at hc1
  rw [meanQ_ne_nil _ h2] at hc2
  exact ⟨_, _, hc1, hc2⟩

/-! ### Resampling data that is already on the minute grid -/

theorem bucket_int_mul_60 (m : ℤ) : bucket ((m : ℚ) * 60) = m := by
  rw [bucket, mul_div_assoc]
  norm_num

theorem chanVals_singleton (r : Rec) (j : ℕ) (w : ℚ)
    (h : (r.2.get? j).join = some w) : chanVals [r] j = [w] := by
  rw [chanVals,
    @List.filterMap_cons_some Rec ℚ (fun r => (r.2.get? j).join) r [] w h,
    List.filterMap_nil]

theorem meanQ_singleton (w : ℚ) : meanQ [w] = some w := by
  rw [meanQ_ne_nil [w] (List.cons_ne_nil w [])]
  norm_num

theorem bucketRecs_grid (recs : List Rec) (b0 : ℤ)
    (hts : ∀ (i : ℕ) (hi : i < recs.length), bucket (recs.get ⟨i, hi⟩).1 = b0 + i) :
    ∀ (i : ℕ) (hi : i < recs.length), bucketRecs recs (b0 + i) = [recs.get ⟨i, hi⟩] := by
  induction recs generalizing b0 with
  | nil =>
    intro i hi
    simp at hi
  | cons r rest ih =>
    have hr0 : bucket r.1 = b0 := by
      have h0 := hts 0 (by simp)
      simpa using h0
    have htr : ∀ (k : ℕ) (hk : k < rest.length),
        bucket (rest.get ⟨k, hk⟩).1 = (b0 + 1) + k := by
      intro k hk
      have hk1 := hts (k + 1) (by simpa using Nat.succ_lt_succ hk)
      rw [List.get_cons_succ] at hk1
      rw [hk1]
      push_cast
      ring
    intro i hi
    cases i with
    | zero =>
      show bucketRecs (r :: rest) (b0 + ((0 : ℕ) : ℤ)) = [r]
      have hb : b0 + ((0 : ℕ) : ℤ) = b0 := by norm_num
      rw [hb, bucketRecs, List.filter_cons, if_pos (by simp [hr0])]
      have hrest : List.filter (fun x => decide (bucket x.1 = b0)) rest = [] := by
        rw [List.filter_eq_nil_iff]
        intro x hx
        obtain ⟨⟨k, hk⟩, rfl⟩ := List.mem_iff_get.mp hx
        have := htr k hk
        simp only [decide_eq_true_eq]
        omega
      rw [hrest]
    | succ i =>
      have hii : i < rest.length := by simpa using hi
      have hbne : ¬ (bucket r.1 = b0 + ((i + 1 : ℕ) : ℤ)) := by
        rw [hr0]
        push_cast
        omega
      rw [bucketRecs, List.filter_cons, if_neg (by simpa using hbne)]
      have harith : b0 + ((i + 1 : ℕ) : ℤ) = (b0 + 1) + (i : ℤ) := by
        push_cast
        ring
      have hih := ih (b0 + 1) htr i hii
      rw [List.get_cons_succ]
      rw [harith]
      exact hih

theorem resample_on_grid (names : List Chan) (recs : List Rec) (b0 : ℤ)
    (hne : recs ≠ [])
    (hts : ∀ (i : ℕ) (hi : i < recs.length), (recs.get ⟨i, hi⟩).1 = ((b0 + (i : ℤ)) : ℚ) * 60)
    (hwf : ∀ r ∈ recs, r.2.length = names.length)
    (hsome : ∀ r ∈ recs, ∀ v ∈ r.2, v.isSome) :
    resample names recs =
      ⟨gridIdx b0 (b0 + recs.length - 1), names, recs.map (fun r => r.2)⟩ := by
  have hbts : ∀ (i : ℕ) (hi : i < recs.length),
      bucket (recs.get ⟨i, hi⟩).1 = b0 + i := by
    intro i hi
    rw [hts i hi]
    have hb := bucket_int_mul_60 (b0 + (i : ℤ))
    push_cast at hb ⊢
    exact hb
  have hlenne : 1 ≤ recs.length := by
    cases recs with
    | nil => exact absurd rfl hne
    | cons r rs => simp
  have hbuckets : recs.map (fun r => bucket r.1) =
      gridIdx b0 (b0 + recs.length - 1) := by
    apply List.ext_get?
    intro i
    by_cases hi : i < recs.length
    · have hlhs : (recs.map (fun r => bucket r.1)).get? i =
          some (bucket (recs.get ⟨i, hi⟩).1) := by
        simp only [List.get?_eq_getElem?, List.getElem?_map]
        rw [List.getElem?_eq_getElem hi]
        rfl
      rw [hlhs, hbts i hi, gridIdx_get? _ _ i (by omega)]
    · rw [List.get?_eq_none.mpr (by simpa using Nat.le_of_not_lt hi),
        List.get?_eq_none.mpr (by rw [gridIdx_length]; omega)]
  have hidx : (resample names recs).index = gridIdx b0 (b0 + recs.length - 1) := by
    rw [resample_index names recs hne, hbuckets,
      listMin_gridIdx _ _ (by omega), listMax_gridIdx _ _ (by omega)]
  have hrowfun : ∀ (i : ℕ) (hi : i < recs.length),
      (List.range names.length).map
        (fun j => meanQ (chanVals (bucketRecs recs (b0 + (i : ℤ))) j)) =
      (recs.get ⟨i, hi⟩).2 := by
    intro i hi
    have hbr := bucketRecs_grid recs b0 hbts i hi
    set r := recs.get ⟨i, hi⟩ with hrdef
    have hrmem : r ∈ recs := List.get_mem recs i hi
    have hrlen : r.2.length = names.length := hwf r hrmem
    apply List.ext_get?
    intro j
    by_cases hj : j < names.length
    · obtain ⟨v, hv⟩ : ∃ v, r.2.get? j = some v :=
        ⟨r.2.get ⟨j, by omega⟩, List.get?_eq_get (by omega)⟩
      obtain ⟨w, rfl⟩ : ∃ w, v = some w := by
        have hvs := hsome r hrmem v (List.get?_mem hv)
        cases v with
        | none => simp at hvs
        | some w => exact ⟨w, rfl⟩
      have hcv : chanVals (bucketRecs recs (b0 + (i : ℤ))) j = [w] := by
        rw [hbr]
        exact chanVals_singleton r j w (by rw [hv]; rfl)
      simp only [List.get?_eq_getElem?, List.getElem?_map, List.getElem?_range hj,
        Option.map_some', hcv, meanQ_singleton]
      simp only [List.get?_eq_getElem?] at hv
      rw [hv]
    · rw [List.get?_eq_none.mpr (by simp; omega), List.get?_eq_none.mpr (by omega)]
  have hrows : (resample names recs).rows = recs.map (fun r => r.2) := by
    rw [resample_rows names recs hne, hidx]
    apply List.ext_get?
    intro i
    by_cases hi : i < recs.length
    · have hgl : (gridIdx b0 (b0 + recs.length - 1)).get? i = some (b0 + (i : ℤ)) :=
        gridIdx_get? _ _ i (by omega)
      simp only [List.get?_eq_getElem?] at hgl ⊢
      rw [List.getElem?_map, hgl, Option.map_some', List.getElem?_map,
        List.getElem?_eq_getElem hi]
      rw [hrowfun i hi]
      rfl
    · rw [List.get?_eq_none.mpr (by rw [List.length_map, gridIdx_length]; omega),
        List.get?_eq_none.mpr (by rw [List.length_map]; omega)]
  cases hres : resample names recs with
  | mk ridx rnames rrows =>
    rw [hres] at hidx hrows
    have hnm : rnames = names := by
      have := resample_names names recs
      rw [hres] at this
      exact this
    simp only [Frame.mk.injEq]
    exact ⟨hidx, hnm, hrows⟩

/-! ## The claims -/

/-- C1: for every non-empty raw record sequence, the resampled series
produced by any of the three readers has exactly one row per minute over
the closed interval from the earliest raw timestamp floored to the minute
to the latest raw timestamp floored to the minute, with timestamps
strictly increasing by exactly one minute, no duplicate timestamps and no
gaps, even when a minute bucket contains zero raw records (such a row
still exists). -/
theorem C1_grid_completeness
    (data : List PulseItem) (recs : List Rec) (f : Frame)
    (srecs : List SpoRec) (g : Frame) (orows : List O2Row) (h : Frame)
    (hrec : pulseRecords data = .ok recs)
    (hf : parse_garmin_pulse data = .ok f)
    (hg : parse_garmin_spo2 srecs = .ok g)
    (hh : parse_o2ring_csv orows = .ok h) :
    coversMinutes f (recs.map Prod.fst) ∧
    coversMinutes g (srecs.map SpoRec.ts) ∧
    coversMinutes h (orows.map O2Row.time) := by
  obtain ⟨hne, rfl⟩ := parse_pulse_ok data recs f hrec hf
  obtain ⟨hsne, rfl⟩ := parse_spo2_ok srecs g hg
  obtain ⟨hone, rfl⟩ := parse_o2ring_ok orows h hh
  refine ⟨?_, ?_, ?_⟩
  · obtain ⟨h1, h2, h3, h4⟩ := resample_covers [.heart_rate] recs hne
    exact ⟨fun t => by rw [interpolate_index]; exact h1 t,
      by rw [interpolate_index]; exact h2,
      by rw [interpolate_index]; exact h3,
      by rw [interpolate_rows_length, interpolate_index]⟩
  · have hmapne : srecs.map (fun r => (r.ts, ([r.spo2, r.conf] : List (Option ℚ)))) ≠ [] := by
      simpa using hsne
    have hc := resample_covers [.garmin_spo2, .garmin_confidence] _ hmapne
    have hts : (srecs.map (fun r => (r.ts, ([r.spo2, r.conf] : List (Option ℚ))))).map Prod.fst
        = srecs.map SpoRec.ts := by
      rw [List.map_map]
      rfl
    rwa [hts] at hc
  · have hmapne : orows.map (fun r =>
        (r.time, ([toNumeric r.oxygen, toNumeric r.pulse, toNumeric r.motion] :
          List (Option ℚ)))) ≠ [] := by
      simpa using hone
    have hc := resample_covers [.o2ring_spo2, .o2ring_pulse, .o2ring_motion] _ hmapne
    have hts : (orows.map (fun r =>
        (r.time, ([toNumeric r.oxygen, toNumeric r.pulse, toNumeric r.motion] :
          List (Option ℚ))))).map Prod.fst = orows.map O2Row.time := by
      rw [List.map_map]
      rfl
    rwa [hts] at hc

/-- Witness for C1 at a concrete one-record input for each reader. -/
theorem C1_grid_completeness_witness :
    coversMinutes ⟨[0], [.heart_rate], [[some 70]]⟩
      ([((0 : ℚ), [some (70 : ℚ)])].map Prod.fst) ∧
    coversMinutes ⟨[0], [.garmin_spo2, .garmin_confidence], [[some 98, some 2]]⟩
      ([(⟨0, some 98, some 2⟩ : SpoRec)].map SpoRec.ts) ∧
    coversMinutes ⟨[1], [.o2ring_spo2, .o2ring_pulse, .o2ring_motion],
        [[some 95, some 60, some 3]]⟩
      ([(⟨90, .num 95, .num 60, .num 3⟩ : O2Row)].map O2Row.time) :=
  C1_grid_completeness
    [⟨some (.num 0), some (.num 70)⟩] [((0 : ℚ), [some (70 : ℚ)])]
    ⟨[0], [.heart_rate], [[some 70]]⟩
    [⟨0, some 98, some 2⟩] ⟨[0], [.garmin_spo2, .garmin_confidence], [[some 98, some 2]]⟩
    [⟨90, .num 95, .num 60, .num 3⟩]
    ⟨[1], [.o2ring_spo2, .o2ring_pulse, .o2ring_motion], [[some 95, some 60, some 3]]⟩
    (by rfl) (by rfl) (by rfl) (by rfl)

/-- C2: for every minute bucket and channel, the resampled value is the
arithmetic mean of the non-missing raw values of that channel whose
floored timestamp falls in the bucket; a bucket containing raw records
but no non-missing value for a channel yields a missing value for that
channel, never zero. -/
theorem C2_mean_aggregation
    (data : List PulseItem) (recs : List Rec) (f : Frame)
    (srecs : List SpoRec) (g : Frame) (orows : List O2Row) (h : Frame)
    (hrec : pulseRecords data = .ok recs)
    (hf : parse_garmin_pulse data = .ok f)
    (hg : parse_garmin_spo2 srecs = .ok g)
    (hh : parse_o2ring_csv orows = .ok h) :
    (∀ i j b, f.index.get? i = some b → j < f.names.length →
      (chanVals (bucketRecs recs b) j ≠ [] →
        cellAt f i j = some ((chanVals (bucketRecs recs b) j).sum /
          ((chanVals (bucketRecs recs b) j).length : ℚ))) ∧
      (bucketRecs recs b ≠ [] → chanVals (bucketRecs recs b) j = [] →
        cellAt f i j = none)) ∧
    (∀ i j b, g.index.get? i = some b → j < g.names.length →
      (chanVals (bucketRecs (srecs.map (fun r => (r.ts, [r.spo2, r.conf]))) b) j ≠ [] →
        cellAt g i j = some
          ((chanVals (bucketRecs (srecs.map (fun r => (r.ts, [r.spo2, r.conf]))) b) j).sum /
           ((chanVals (bucketRecs (srecs.map (fun r => (r.ts, [r.spo2, r.conf]))) b) j).length
             : ℚ))) ∧
      (chanVals (bucketRecs (srecs.map (fun r => (r.ts, [r.spo2, r.conf]))) b) j = [] →
        cellAt g i j = none)) ∧
    (∀ i j b, h.index.get? i = some b → j < h.names.length →
      (chanVals (bucketRecs (orows.map (fun r =>
          (r.time, [toNumeric r.oxygen, toNumeric r.pulse, toNumeric r.motion]))) b) j ≠ [] →
        cellAt h i j = some
          ((chanVals (bucketRecs (orows.map (fun r =>
              (r.time, [toNumeric r.oxygen, toNumeric r.pulse, toNumeric r.motion]))) b) j).sum /
           ((chanVals (bucketRecs (orows.map (fun r =>
              (r.time, [toNumeric r.oxygen, toNumeric r.pulse, toNumeric r.motion]))) b) j).length
             : ℚ))) ∧
      (chanVals (bucketRecs (orows.map (fun r =>
          (r.time, [toNumeric r.oxygen, toNumeric r.pulse, toNumeric r.motion]))) b) j = [] →
        cellAt h i j = none)) := by
  obtain ⟨hne, rfl⟩ := parse_pulse_ok data recs f hrec hf
  obtain ⟨hsne, rfl⟩ := parse_spo2_ok srecs g hg
  obtain ⟨hone, rfl⟩ := parse_o2ring_ok orows h hh
  refine ⟨?_, ?_, ?_⟩
  · intro i j b hb hj
    rw [interpolate_index] at hb
    rw [interpolate_names, resample_names] at hj
    have hi : i < (resample [Chan.heart_rate] recs).index.length := by
      obtain ⟨hlt, -⟩ := List.get?_eq_some.mp hb
      exact hlt
    have hir : i < (resample [Chan.heart_rate] recs).rows.length := by
      rw [resample_rows_length]
      exact hi
    have hcell := resample_cellAt [Chan.heart_rate] recs hne i j b hb hj
    constructor
    · intro hvne
      rw [meanQ_ne_nil _ hvne] at hcell
      exact interpolate_cellAt_known _ i j _ hi hir
        (by rwa [resample_names]) hcell
    · intro hbne hvnil
      exfalso
      have hj0 : j = 0 := by
        simp at hj
        omega
      subst hj0
      have hshape : ∀ r ∈ bucketRecs recs b, ∃ v, r.2 = [some v] := fun r hr =>
        pulseRecords_shape data recs hrec r (List.mem_of_mem_filter hr)
      exact chanVals_ne_nil (bucketRecs recs b) hshape hbne hvnil
  · intro i j b hb hj
    rw [resample_names] at hj
    have hcell := resample_cellAt [Chan.garmin_spo2, Chan.garmin_confidence] _
      (by simpa using hsne) i j b hb hj
    constructor
    · intro hvne
      rwa [meanQ_ne_nil _ hvne] at hcell
    · intro hvnil
      rwa [hvnil, meanQ_nil] at hcell
  · intro i j b hb hj
    rw [resample_names] at hj
    have hcell := resample_cellAt [Chan.o2ring_spo2, Chan.o2ring_pulse, Chan.o2ring_motion] _
      (by simpa using hone) i j b hb hj
    constructor
    · intro hvne
      rwa [meanQ_ne_nil _ hvne] at hcell
    · intro hvnil
      rwa [hvnil, meanQ_nil] at hcell

/-- Witness for C2: one cell per reader at a concrete one-record input. -/
theorem C2_mean_aggregation_witness :
    cellAt ⟨[0], [.heart_rate], [[some 70]]⟩ 0 0 =
      some ((chanVals (bucketRecs [((0 : ℚ), [some (70 : ℚ)])] 0) 0).sum /
        ((chanVals (bucketRecs [((0 : ℚ), [some (70 : ℚ)])] 0) 0).length : ℚ)) ∧
    cellAt ⟨[0], [.garmin_spo2, .garmin_confidence], [[some 98, some 2]]⟩ 0 1 =
      some ((chanVals (bucketRecs [((0 : ℚ), ([some 98, some 2] : List (Option ℚ)))] 0) 1).sum /
        ((chanVals (bucketRecs [((0 : ℚ), ([some 98, some 2] : List (Option ℚ)))] 0) 1).length
          : ℚ)) ∧
    cellAt ⟨[1], [.o2ring_spo2, .o2ring_pulse, .o2ring_motion], [[some 95, some 60, some 3]]⟩ 0 2 =
      some ((chanVals (bucketRecs
          [((90 : ℚ), ([some 95, some 60, some 3] : List (Option ℚ)))] 1) 2).sum /
        ((chanVals (bucketRecs
          [((90 : ℚ), ([some 95, some 60, some 3] : List (Option ℚ)))] 1) 2).length : ℚ)) := by
  have hall := C2_mean_aggregation
    [⟨some (.num 0), some (.num 70)⟩] [((0 : ℚ), [some (70 : ℚ)])]
    ⟨[0], [.heart_rate], [[some 70]]⟩
    [⟨0, some 98, some 2⟩] ⟨[0], [.garmin_spo2, .garmin_confidence], [[some 98, some 2]]⟩
    [⟨90, .num 95, .num 60, .num 3⟩]
    ⟨[1], [.o2ring_spo2, .o2ring_pulse, .o2ring_motion], [[some 95, some 60, some 3]]⟩
    (by rfl) (by rfl) (by rfl) (by rfl)
  exact ⟨(hall.1 0 0 0 (by rfl) (by decide)).1 (by decide),
    (hall.2.1 0 1 0 (by rfl) (by decide)).1 (by decide),
    (hall.2.2 0 2 1 (by rfl) (by decide)).1 (by decide)⟩

/-- C3: for any three grid-shaped input series, the merged table covers
exactly the closed interval from the maximum of the first timestamps to
the minimum of the last timestamps, its column set is the union of the
input columns, and when the interval is empty the result is a zero-row
table that still carries the full union of columns. -/
theorem C3_merge_intersection (p s o : Frame) (pl ph sl sh ol oh : ℤ)
    (hp : IsGridFrame p pl ph) (hs : IsGridFrame s sl sh) (ho : IsGridFrame o ol oh) :
    (merge_data p s o).index = gridIdx (max (max pl sl) ol) (min (min ph sh) oh) ∧
    (merge_data p s o).names = p.names ++ s.names ++ o.names ∧
    (min (min ph sh) oh < max (max pl sl) ol →
      (merge_data p s o).index = [] ∧ (merge_data p s o).rows = []) := by
  have hidx := merge_data_index p s o pl ph sl sh ol oh hp hs ho
  refine ⟨hidx, merge_data_names p s o, ?_⟩
  intro hlt
  have hnil : gridIdx (max (max pl sl) ol) (min (min ph sh) oh) = [] :=
    gridIdx_eq_nil _ _ hlt
  have hrows : (merge_data p s o).rows = (merge_data p s o).index.map
      (fun t => (([p.trim (max (max p.idxMin s.idxMin) o.idxMin)
            (min (min p.idxMax s.idxMax) o.idxMax),
          s.trim (max (max p.idxMin s.idxMin) o.idxMin)
            (min (min p.idxMax s.idxMax) o.idxMax),
          o.trim (max (max p.idxMin s.idxMin) o.idxMin)
            (min (min p.idxMax s.idxMax) o.idxMax)].map
        (fun fr => fr.rowAt t)).flatten)) := rfl
  refine ⟨by rw [hidx, hnil], ?_⟩
  rw [hrows, hidx, hnil]
  rfl

/-- Witness for C3: three concrete grid frames with overlap exactly at
minute 1. -/
theorem C3_merge_intersection_witness :
    (merge_data ⟨[0, 1], [.heart_rate], [[some 1], [some 2]]⟩
        ⟨[1, 2], [.garmin_spo2, .garmin_confidence], [[some 9, some 1], [some 8, some 2]]⟩
        ⟨[1], [.o2ring_spo2, .o2ring_pulse, .o2ring_motion],
          [[some 5, some 6, some 0]]⟩).index =
      gridIdx (max (max 0 1) 1) (min (min 1 2) 1) ∧
    (merge_data ⟨[0, 1], [.heart_rate], [[some 1], [some 2]]⟩
        ⟨[1, 2], [.garmin_spo2, .garmin_confidence], [[some 9, some 1], [some 8, some 2]]⟩
        ⟨[1], [.o2ring_spo2, .o2ring_pulse, .o2ring_motion],
          [[some 5, some 6, some 0]]⟩).names =
      [Chan.heart_rate] ++ [Chan.garmin_spo2, Chan.garmin_confidence] ++
        [Chan.o2ring_spo2, Chan.o2ring_pulse, Chan.o2ring_motion] ∧
    (min (min (1 : ℤ) 2) 1 < max (max 0 1) 1 →
      (merge_data ⟨[0, 1], [.heart_rate], [[some 1], [some 2]]⟩
          ⟨[1, 2], [.garmin_spo2, .garmin_confidence], [[some 9, some 1], [some 8, some 2]]⟩
          ⟨[1], [.o2ring_spo2, .o2ring_pulse, .o2ring_motion],
            [[some 5, some 6, some 0]]⟩).index = [] ∧
      (merge_data ⟨[0, 1], [.heart_rate], [[some 1], [some 2]]⟩
          ⟨[1, 2], [.garmin_spo2, .garmin_confidence], [[some 9, some 1], [some 8, some 2]]⟩
          ⟨[1], [.o2ring_spo2, .o2ring_pulse, .o2ring_motion],
            [[some 5, some 6, some 0]]⟩).rows = []) := by
  exact C3_merge_intersection
    ⟨[0, 1], [.heart_rate], [[some 1], [some 2]]⟩
    ⟨[1, 2], [.garmin_spo2, .garmin_confidence], [[some 9, some 1], [some 8, some 2]]⟩
    ⟨[1], [.o2ring_spo2, .o2ring_pulse, .o2ring_motion], [[some 5, some 6, some 0]]⟩
    0 1 1 2 1 1 ⟨by decide, by decide, by decide⟩ ⟨by decide, by decide, by decide⟩
    ⟨by decide, by decide, by decide⟩

/-- C4: for a gap-fill column, if positions i and j hold known values a
and b and every position strictly between them is missing, the linear
interpolation step fills each such position p with a plus the fraction
(p - i) / (j - i) of (b - a). -/
theorem C4_interpolation_correctness (l : List (Option ℚ)) (i j p : ℕ) (a b : ℚ)
    (hij : i < j) (hjl : j < l.length)
    (ha : l.get? i = some (some a)) (hb : l.get? j = some (some b))
    (hmid : ∀ q, i < q → q < j → l.get? q = some none)
    (hp1 : i < p) (hp2 : p < j) :
    (interpolateLinear l).get? p =
      some (some (a + (((p : ℚ) - (i : ℚ)) / ((j : ℚ) - (i : ℚ))) * (b - a))) := by
  have hpl : p < l.length := by omega
  rw [interpolateLinear_get? l p hpl]
  have hpnone : (l.get? p).join = none := by
    rw [hmid p hp1 hp2]
    rfl
  have hprev : prevKnown l p = some (i, a) :=
    prevKnown_eq l i a (by rw [ha]; rfl) p (by omega)
      (fun q hq1 hq2 => by rw [hmid q hq1 (by omega)]; rfl)
  have hnext : nextKnown l p = some (j, b) :=
    nextKnown_eq l p j b (by omega) hb
      (fun q hq1 hq2 => by rw [hmid q (by omega) hq2]; rfl)
  simp only [interpAt, hpnone, hprev, hnext]
  have harith : a + (b - a) * (((p : ℚ) - (i : ℚ)) / ((j : ℚ) - (i : ℚ))) =
      a + (((p : ℚ) - (i : ℚ)) / ((j : ℚ) - (i : ℚ))) * (b - a) := by
    ring
  rw [harith]

/-- Witness for C4: the missing middle minute between 60 and 70 is filled
with the halfway value. -/
theorem C4_interpolation_correctness_witness :
    (interpolateLinear [some 60, none, some 70]).get? 1 =
      some (some (60 + (((1 : ℚ) - ((0 : ℕ) : ℚ)) / (((2 : ℕ) : ℚ) - ((0 : ℕ) : ℚ))) *
        (70 - 60))) :=
  C4_interpolation_correctness [some 60, none, some 70] 0 2 1 60 70
    (by decide) (by decide) (by decide) (by decide)
    (fun q hq1 hq2 => by
      have hq : q = 1 := by omega
      subst hq
      rfl)
    (by decide) (by decide)

/-- C5 counterexample: with the default forward limit direction, the
pandas linear interpolation used at parse.py line 39 fills a missing
value after the last known value with that value instead of leaving it
missing: the column with value 1 at the first minute and nothing at the
second comes back fully filled. -/
theorem C5_no_fabrication_cex :
    interpolateLinear [some 1, none] = [some 1, some 1] ∧
    (interpolateLinear [some 1, none]).get? 1 ≠ some none := by
  constructor
  · rfl
  · intro hcon
    cases hcon

/-- C5 amended: for an interpolation-enabled column, positions before the
first known value remain missing after gap-fill, while positions after
the last known value are filled with that last known value (forward
extrapolation), not left missing. -/
theorem C5_no_fabrication_amended (l : List (Option ℚ)) (i : ℕ) (hi : i < l.length) :
    ((∀ q, q ≤ i → (l.get? q).join = none) →
      (interpolateLinear l).get? i = some none) ∧
    (∀ j a, j < i → l.get? j = some (some a) →
      (∀ q, j < q → (l.get? q).join = none) →
      (interpolateLinear l).get? i = some (some a)) := by
  constructor
  · intro hq
    rw [interpolateLinear_get? l i hi]
    have hj : (l.get? i).join = none := hq i (le_refl i)
    have hp : prevKnown l i = none := prevKnown_none l i hq
    simp only [interpAt, hj, hp]
  · intro j a hji ha hq
    rw [interpolateLinear_get? l i hi]
    have hj : (l.get? i).join = none := hq i hji
    have hp : prevKnown l i = some (j, a) :=
      prevKnown_eq l j a (by rw [ha]; rfl) i (by omega) (fun q h1 h2 => hq q h1)
    have hn : nextKnown l i = none :=
      nextKnown_none l i (fun q h1 => hq q (by omega))
    simp only [interpAt, hj, hp, hn]

/-- Witness for C5 amended: a leading missing value stays missing and a
trailing missing value receives the last known value. -/
theorem C5_no_fabrication_amended_witness :
    (interpolateLinear [none, some 2, none]).get? 0 = some none ∧
    (interpolateLinear [none, some 2, none]).get? 2 = some (some 2) := by
  constructor
  · refine (C5_no_fabrication_amended [none, some 2, none] 0 (by decide)).1 ?_
    intro q hq
    have hq0 : q = 0 := by omega
    subst hq0
    rfl
  · refine (C5_no_fabrication_amended [none, some 2, none] 2 (by decide)).2 1 2
      (by decide) (by decide) ?_
    intro q hq
    rcases Nat.lt_or_ge q 3 with h3 | h3
    · have hq2 : q = 2 := by omega
      subst hq2
      rfl
    · rw [List.get?_eq_none.mpr (by simpa using h3)]
      rfl

/-- C6: the SpO2 reader and the device-CSV reader apply no gap-fill: a
cell of their resampled output is missing exactly when its minute bucket
holds no non-missing raw value for that channel (gap-fill by linear
interpolation exists only in the pulse pipeline). -/
theorem C6_no_gap_fill
    (srecs : List SpoRec) (g : Frame) (orows : List O2Row) (h : Frame)
    (hg : parse_garmin_spo2 srecs = .ok g)
    (hh : parse_o2ring_csv orows = .ok h) :
    (∀ i j b, g.index.get? i = some b → j < g.names.length →
      (cellAt g i j = none ↔
        chanVals (bucketRecs (srecs.map (fun r => (r.ts, [r.spo2, r.conf]))) b) j = [])) ∧
    (∀ i j b, h.index.get? i = some b → j < h.names.length →
      (cellAt h i j = none ↔
        chanVals (bucketRecs (orows.map (fun r =>
          (r.time, [toNumeric r.oxygen, toNumeric r.pulse, toNumeric r.motion]))) b) j
          = [])) := by
  obtain ⟨hsne, rfl⟩ := parse_spo2_ok srecs g hg
  obtain ⟨hone, rfl⟩ := parse_o2ring_ok orows h hh
  constructor
  · intro i j b hb hj
    rw [resample_names] at hj
    rw [resample_cellAt [Chan.garmin_spo2, Chan.garmin_confidence] _
      (by simpa using hsne) i j b hb hj]
    exact meanQ_eq_none_iff _
  · intro i j b hb hj
    rw [resample_names] at hj
    rw [resample_cellAt [Chan.o2ring_spo2, Chan.o2ring_pulse, Chan.o2ring_motion] _
      (by simpa using hone) i j b hb hj]
    exact meanQ_eq_none_iff _

/-- Witness for C6: the empty middle minute of a two-record SpO2 input
stays missing, and a populated O2Ring bucket is not missing. -/
theorem C6_no_gap_fill_witness :
    (cellAt ⟨[0, 1, 2], [.garmin_spo2, .garmin_confidence],
        [[some 98, some 2], [none, none], [some 96, some 1]]⟩ 1 0 = none ↔
      chanVals (bucketRecs (([⟨0, some 98, some 2⟩, ⟨120, some 96, some 1⟩] :
        List SpoRec).map (fun r => (r.ts, [r.spo2, r.conf]))) 1) 0 = []) ∧
    (cellAt ⟨[1], [.o2ring_spo2, .o2ring_pulse, .o2ring_motion],
        [[some 95, some 60, some 3]]⟩ 0 2 = none ↔
      chanVals (bucketRecs (([⟨90, .num 95, .num 60, .num 3⟩] : List O2Row).map (fun r =>
        (r.time, [toNumeric r.oxygen, toNumeric r.pulse, toNumeric r.motion]))) 1) 2 = []) := by
  have hall := C6_no_gap_fill [⟨0, some 98, some 2⟩, ⟨120, some 96, some 1⟩]
    ⟨[0, 1, 2], [.garmin_spo2, .garmin_confidence],
      [[some 98, some 2], [none, none], [some 96, some 1]]⟩
    [⟨90, .num 95, .num 60, .num 3⟩]
    ⟨[1], [.o2ring_spo2, .o2ring_pulse, .o2ring_motion], [[some 95, some 60, some 3]]⟩
    (by rfl) (by rfl)
  exact ⟨hall.1 1 0 1 (by rfl) (by decide), hall.2 0 2 1 (by rfl) (by decide)⟩

/-- C7: merging three grid-shaped series with pairwise disjoint channel
names yields a table whose every row timestamp occurs in every truncated
input, whose column set is exactly the union of the input columns, and
whose every cell equals the owning series value at that timestamp. -/
theorem C7_disjoint_columns (p s o : Frame) (pl ph sl sh ol oh : ℤ)
    (hp : IsGridFrame p pl ph) (hs : IsGridFrame s sl sh) (ho : IsGridFrame o ol oh)
    (hpw : ∀ r ∈ p.rows, r.length = p.names.length)
    (hsw : ∀ r ∈ s.rows, r.length = s.names.length)
    (how : ∀ r ∈ o.rows, r.length = o.names.length)
    (hd1 : ∀ c ∈ p.names, c ∉ s.names ∧ c ∉ o.names)
    (hd2 : ∀ c ∈ s.names, c ∉ o.names) :
    (∀ t ∈ (merge_data p s o).index,
      t ∈ (p.trim (max (max p.idxMin s.idxMin) o.idxMin)
        (min (min p.idxMax s.idxMax) o.idxMax)).index ∧
      t ∈ (s.trim (max (max p.idxMin s.idxMin) o.idxMin)
        (min (min p.idxMax s.idxMax) o.idxMax)).index ∧
      t ∈ (o.trim (max (max p.idxMin s.idxMin) o.idxMin)
        (min (min p.idxMax s.idxMax) o.idxMax)).index) ∧
    (merge_data p s o).names = p.names ++ s.names ++ o.names ∧
    (∀ c ∈ p.names, ∀ t ∈ (merge_data p s o).index,
      (merge_data p s o).cell t c = p.cell t c) ∧
    (∀ c ∈ s.names, ∀ t ∈ (merge_data p s o).index,
      (merge_data p s o).cell t c = s.cell t c) ∧
    (∀ c ∈ o.names, ∀ t ∈ (merge_data p s o).index,
      (merge_data p s o).cell t c = o.cell t c) := by
  have hmins : max (max p.idxMin s.idxMin) o.idxMin = max (max pl sl) ol := by
    rw [grid_idxMin p pl ph hp, grid_idxMin s sl sh hs, grid_idxMin o ol oh ho]
  have hmaxs : min (min p.idxMax s.idxMax) o.idxMax = min (min ph sh) oh := by
    rw [grid_idxMax p pl ph hp, grid_idxMax s sl sh hs, grid_idxMax o ol oh ho]
  have hmidx := merge_data_index p s o pl ph sl sh ol oh hp hs ho
  refine ⟨?_, merge_data_names p s o, ?_, ?_, ?_⟩
  · intro t ht
    rw [hmidx] at ht
    rw [hmins, hmaxs,
      trim_grid_index p pl ph _ _ hp.1 hp.2.2 (by omega) (by omega),
      trim_grid_index s sl sh _ _ hs.1 hs.2.2 (by omega) (by omega),
      trim_grid_index o ol oh _ _ ho.1 ho.2.2 (by omega) (by omega)]
    exact ⟨ht, ht, ht⟩
  · intro c hc t ht
    exact merge_cell_p p s o pl ph sl sh ol oh hp hs ho hpw c hc t ht
  · intro c hc t ht
    exact merge_cell_s p s o pl ph sl sh ol oh hp hs ho hpw hsw c hc
      (fun hcp => (hd1 c hcp).1 hc) t ht
  · intro c hc t ht
    exact merge_cell_o p s o pl ph sl sh ol oh hp hs ho hpw hsw how c hc
      (fun hcp => (hd1 c hcp).2 hc) (fun hcs => hd2 c hcs hc) t ht

/-- Witness for C7 at three one-row frames sharing minute 0. -/
theorem C7_disjoint_columns_witness :
    (merge_data ⟨[0], [.heart_rate], [[some 1]]⟩
        ⟨[0], [.garmin_spo2, .garmin_confidence], [[some 9, some 2]]⟩
        ⟨[0], [.o2ring_spo2, .o2ring_pulse, .o2ring_motion],
          [[some 5, some 6, some 0]]⟩).cell 0 Chan.heart_rate =
      Frame.cell ⟨[0], [.heart_rate], [[some 1]]⟩ 0 Chan.heart_rate ∧
    (merge_data ⟨[0], [.heart_rate], [[some 1]]⟩
        ⟨[0], [.garmin_spo2, .garmin_confidence], [[some 9, some 2]]⟩
        ⟨[0], [.o2ring_spo2, .o2ring_pulse, .o2ring_motion],
          [[some 5, some 6, some 0]]⟩).cell 0 Chan.garmin_confidence =
      Frame.cell ⟨[0], [.garmin_spo2, .garmin_confidence], [[some 9, some 2]]⟩ 0
        Chan.garmin_confidence ∧
    (merge_data ⟨[0], [.heart_rate], [[some 1]]⟩
        ⟨[0], [.garmin_spo2, .garmin_confidence], [[some 9, some 2]]⟩
        ⟨[0], [.o2ring_spo2, .o2ring_pulse, .o2ring_motion],
          [[some 5, some 6, some 0]]⟩).cell 0 Chan.o2ring_motion =
      Frame.cell ⟨[0], [.o2ring_spo2, .o2ring_pulse, .o2ring_motion],
        [[some 5, some 6, some 0]]⟩ 0 Chan.o2ring_motion := by
  have hall := C7_disjoint_columns
    ⟨[0], [.heart_rate], [[some 1]]⟩
    ⟨[0], [.garmin_spo2, .garmin_confidence], [[some 9, some 2]]⟩
    ⟨[0], [.o2ring_spo2, .o2ring_pulse, .o2ring_motion], [[some 5, some 6, some 0]]⟩
    0 0 0 0 0 0
    ⟨by decide, by decide, by decide⟩ ⟨by decide, by decide, by decide⟩
    ⟨by decide, by decide, by decide⟩
    (by decide) (by decide) (by decide) (by decide) (by decide)
  exact ⟨hall.2.2.1 Chan.heart_rate (by decide) 0 (by decide),
    hall.2.2.2.1 Chan.garmin_confidence (by decide) 0 (by decide),
    hall.2.2.2.2 Chan.o2ring_motion (by decide) 0 (by decide)⟩

/-- C8: resampling records that already sit on an exact one-minute grid,
one record per minute with no missing value, returns the input series
unchanged, and the gap-fill step leaves it unchanged too. -/
theorem C8_resample_idempotent (names : List Chan) (recs : List Rec) (b0 : ℤ)
    (hne : recs ≠ [])
    (hts : ∀ (i : ℕ) (hi : i < recs.length),
      (recs.get ⟨i, hi⟩).1 = ((b0 + (i : ℤ)) : ℚ) * 60)
    (hwf : ∀ r ∈ recs, r.2.length = names.length)
    (hsome : ∀ r ∈ recs, ∀ v ∈ r.2, v.isSome) :
    resample names recs =
      ⟨gridIdx b0 (b0 + recs.length - 1), names, recs.map (fun r => r.2)⟩ ∧
    (resample names recs).interpolate = resample names recs := by
  have hres := resample_on_grid names recs b0 hne hts hwf hsome
  refine ⟨hres, ?_⟩
  apply interpolate_of_all_some
  · exact resample_rows_length names recs
  · intro r hr
    rw [resample_names]
    exact resample_wf names recs r hr
  · intro r hr v hv
    have hrows : (resample names recs).rows = recs.map (fun r => r.2) := by rw [hres]
    rw [hrows] at hr
    obtain ⟨r0, hr0, rfl⟩ := List.mem_map.mp hr
    exact hsome r0 hr0 v hv

/-- Witness for C8: two consecutive minutes with known heart rates come
back unchanged through resampling and gap-fill. -/
theorem C8_resample_idempotent_witness :
    resample [Chan.heart_rate] [((0 : ℚ), [some (60 : ℚ)]), ((60 : ℚ), [some 62])] =
      ⟨gridIdx 0 (0 + ([((0 : ℚ), [some (60 : ℚ)]), ((60 : ℚ), [some 62])] :
          List Rec).length - 1),
        [Chan.heart_rate],
        ([((0 : ℚ), [some (60 : ℚ)]), ((60 : ℚ), [some 62])] : List Rec).map
          (fun r => r.2)⟩ ∧
    (resample [Chan.heart_rate]
        [((0 : ℚ), [some (60 : ℚ)]), ((60 : ℚ), [some 62])]).interpolate =
      resample [Chan.heart_rate] [((0 : ℚ), [some (60 : ℚ)]), ((60 : ℚ), [some 62])] :=
  C8_resample_idempotent [Chan.heart_rate]
    [((0 : ℚ), [some (60 : ℚ)]), ((60 : ℚ), [some 62])] 0
    (by decide) (by decide) (by decide) (by decide)

/-- C9 counterexample: the empty input vacuously satisfies the claimed
success condition (every record has both fields numeric), yet the pulse
reader fails on it, because the code raises while setting the index on
the empty frame. -/
theorem C9_pulse_errors_cex : parse_garmin_pulse [] = .error .emptyInput := rfl

/-- C9 amended: the pulse reader fails with MalformedInput whenever a
record lacks the startGMT or value field or carries a non-numeric value,
and succeeds on every NON-EMPTY input whose records all carry both fields
with numeric values; the empty input instead fails with EmptyInput. -/
theorem C9_pulse_errors (data : List PulseItem) :
    ((∃ item ∈ data, item.startGMT = none ∨ item.value = none ∨
        ∃ msg, item.value = some (.str msg)) →
      parse_garmin_pulse data = .error .malformedInput) ∧
    (data ≠ [] →
      (∀ item ∈ data, (∃ q, item.startGMT = some (.num q)) ∧
        (∃ q, item.value = some (.num q))) →
      ∃ f, parse_garmin_pulse data = .ok f) := by
  constructor
  · rintro ⟨item, hitem, hbad⟩
    have hbad' : numOf item.startGMT = none ∨ numOf item.value = none := by
      rcases hbad with hcase | hcase | ⟨msg, hcase⟩
      · exact Or.inl (by rw [hcase]; rfl)
      · exact Or.inr (by rw [hcase]; rfl)
      · exact Or.inr (by rw [hcase]; rfl)
    have herr := pulseRecords_err_of_bad data ⟨item, hitem, hbad'⟩
    rw [parse_garmin_pulse, herr]
  · intro hne hgood
    have hgood' : ∀ item ∈ data,
        (∃ q, numOf item.startGMT = some q) ∧ ∃ q, numOf item.value = some q := by
      intro item him
      obtain ⟨⟨q1, h1⟩, ⟨q2, h2⟩⟩ := hgood item him
      exact ⟨⟨q1, by rw [h1]; rfl⟩, ⟨q2, by rw [h2]; rfl⟩⟩
    obtain ⟨recs, hok, hlen⟩ := pulseRecords_ok_of_good data hgood'
    cases recs with
    | nil =>
      exfalso
      cases data with
      | nil => exact hne rfl
      | cons d ds => simp at hlen
    | cons r rs =>
      refine ⟨Frame.interpolate (resample [Chan.heart_rate] (r :: rs)), ?_⟩
      rw [parse_garmin_pulse, hok]

/-- Witness for C9: a record missing the startGMT field fails, a
well-formed single record succeeds. -/
theorem C9_pulse_errors_witness :
    parse_garmin_pulse [⟨none, some (.num 70)⟩] = .error .malformedInput ∧
    ∃ f, parse_garmin_pulse [⟨some (.num 0), some (.num 70)⟩] = .ok f :=
  ⟨(C9_pulse_errors [⟨none, some (.num 70)⟩]).1
      ⟨⟨none, some (.num 70)⟩, by decide, Or.inl rfl⟩,
   (C9_pulse_errors [⟨some (.num 0), some (.num 70)⟩]).2 (by decide)
      (fun item him => by
        have hitem : item = ⟨some (.num 0), some (.num 70)⟩ := by
          simpa using him
        subst hitem
        exact ⟨⟨0, rfl⟩, ⟨70, rfl⟩⟩)⟩

/-- C10: for non-empty all-numeric inputs, the first and the last row of
the pulse and SpO2 reader outputs hold a known value in every channel,
because the boundary buckets contain the earliest and latest raw
records. -/
theorem C10_boundary_rows
    (data : List PulseItem) (recs : List Rec) (f : Frame)
    (srecs : List SpoRec) (g : Frame)
    (hrec : pulseRecords data = .ok recs)
    (hf : parse_garmin_pulse data = .ok f)
    (hg : parse_garmin_spo2 srecs = .ok g)
    (hsv : ∀ r ∈ srecs, r.spo2.isSome ∧ r.conf.isSome) :
    (∀ j, j < f.names.length →
      (cellAt f 0 j).isSome ∧ (cellAt f (f.index.length - 1) j).isSome) ∧
    (∀ j, j < g.names.length →
      (cellAt g 0 j).isSome ∧ (cellAt g (g.index.length - 1) j).isSome) := by
  obtain ⟨hne, rfl⟩ := parse_pulse_ok data recs f hrec hf
  obtain ⟨hsne, rfl⟩ := parse_spo2_ok srecs g hg
  constructor
  · intro j hj
    rw [interpolate_names, resample_names] at hj
    have hall : ∀ r ∈ recs, ∀ j2, j2 < ([Chan.heart_rate] : List Chan).length →
        ∃ v, (r.2.get? j2).join = some v := by
      intro r hr j2 hj2
      obtain ⟨v, hv⟩ := pulseRecords_shape data recs hrec r hr
      have hj20 : j2 = 0 := by
        simpa using hj2
      subst hj20
      exact ⟨v, by rw [hv]; rfl⟩
    obtain ⟨v, w, hv, hw⟩ := resample_boundary_cell [Chan.heart_rate] recs hne hall j hj
    have hlen := resample_rows_length [Chan.heart_rate] recs
    have hlenpos : 0 < (resample [Chan.heart_rate] recs).index.length := by
      have hne2 := resample_index_ne_nil [Chan.heart_rate] recs hne
      cases hidx : (resample [Chan.heart_rate] recs).index with
      | nil => exact absurd hidx hne2
      | cons x xs => simp
    constructor
    · have hk := interpolate_cellAt_known (resample [Chan.heart_rate] recs) 0 j v
        hlenpos (by omega) (by rwa [resample_names]) hv
      rw [hk]
      rfl
    · have hk := interpolate_cellAt_known (resample [Chan.heart_rate] recs)
        ((resample [Chan.heart_rate] recs).index.length - 1) j w
        (by omega) (by omega) (by rwa [resample_names]) hw
      rw [interpolate_index, hk]
      rfl
  · intro j hj
    rw [resample_names] at hj
    have hall : ∀ r ∈ srecs.map (fun r => (r.ts, [r.spo2, r.conf])), ∀ j2,
        j2 < ([Chan.garmin_spo2, Chan.garmin_confidence] : List Chan).length →
        ∃ v, (r.2.get? j2).join = some v := by
      intro r hr j2 hj2
      obtain ⟨sr, hsr, rfl⟩ := List.mem_map.mp hr
      obtain ⟨h1, h2⟩ := hsv sr hsr
      obtain ⟨v1, hv1⟩ := Option.isSome_iff_exists.mp h1
      obtain ⟨v2, hv2⟩ := Option.isSome_iff_exists.mp h2
      simp only [List.length_cons, List.length_nil] at hj2
      interval_cases j2
      · exact ⟨v1, by rw [show ((sr.ts, [sr.spo2, sr.conf]) : Rec).2.get? 0 =
          some sr.spo2 from rfl, hv1]; rfl⟩
      · exact ⟨v2, by rw [show ((sr.ts, [sr.spo2, sr.conf]) : Rec).2.get? 1 =
          some sr.conf from rfl, hv2]; rfl⟩
    obtain ⟨v, w, hv, hw⟩ := resample_boundary_cell _ _ (by simpa using hsne) hall j hj
    exact ⟨by rw [hv]; rfl, by rw [hw]; rfl⟩

/-- Witness for C10 at one-record pulse and SpO2 inputs. -/
theorem C10_boundary_rows_witness :
    (∀ j, j < (⟨[0], [Chan.heart_rate], [[some 70]]⟩ : Frame).names.length →
      (cellAt ⟨[0], [Chan.heart_rate], [[some 70]]⟩ 0 j).isSome ∧
      (cellAt ⟨[0], [Chan.heart_rate], [[some 70]]⟩
        ((⟨[0], [Chan.heart_rate], [[some 70]]⟩ : Frame).index.length - 1) j).isSome) ∧
    (∀ j, j < (⟨[0], [Chan.garmin_spo2, Chan.garmin_confidence],
        [[some 98, some 2]]⟩ : Frame).names.length →
      (cellAt ⟨[0], [Chan.garmin_spo2, Chan.garmin_confidence], [[some 98, some 2]]⟩ 0 j).isSome ∧
      (cellAt ⟨[0], [Chan.garmin_spo2, Chan.garmin_confidence], [[some 98, some 2]]⟩
        ((⟨[0], [Chan.garmin_spo2, Chan.garmin_confidence],
          [[some 98, some 2]]⟩ : Frame).index.length - 1) j).isSome) :=
  C10_boundary_rows
    [⟨some (.num 0), some (.num 70)⟩] [((0 : ℚ), [some (70 : ℚ)])]
    ⟨[0], [Chan.heart_rate], [[some 70]]⟩
    [⟨0, some 98, some 2⟩]
    ⟨[0], [Chan.garmin_spo2, Chan.garmin_confidence], [[some 98, some 2]]⟩
    (by rfl) (by rfl) (by rfl) (by decide)

end ParsePy
